import Mathlib

/-!
Verification development for the nodecules graph execution engine
(`backend/nodecules/core/graph.py`, `core/executor.py`, `core/types.py`).

Python dictionaries are embedded as association lists (`List (String × α)`,
insertion-ordered, unique keys in every state reachable from a real dict);
`defaultdict(int)` counters use `Int` so that decrementing past zero behaves
exactly as in Python.  Exceptions are embedded as `Except` / `Option` error
components.  Node values (Python `Any`) are a type parameter `V`; `None` is
`Option.none`.  Wall-clock timestamps attached to streaming events are not
modelled beyond their presence (a `Unit` field).
-/

namespace Nodecules

/-- Lookup in an insertion-ordered association list (Python `dict.get`). -/
def getA {α : Type} (k : String) : List (String × α) → Option α
  | [] => none
  | (k2, v) :: rest => if k2 = k then some v else getA k rest

/-- Update/insert in an insertion-ordered association list (Python
`dict.__setitem__`: overwrite in place, or append a new key at the end). -/
def setA {α : Type} (k : String) (v : α) : List (String × α) → List (String × α)
  | [] => [(k, v)]
  | (k2, v2) :: rest => if k2 = k then (k2, v) :: rest else (k2, v2) :: setA k v rest

/-- Key list of an association list, in insertion order. -/
def keysA {α : Type} (l : List (String × α)) : List String := l.map Prod.fst

/-- Python `defaultdict(int)` increment: `d[k] += 1`. -/
def incA (k : String) (l : List (String × Int)) : List (String × Int) :=
  setA k ((getA k l).getD 0 + 1) l

/-- Python `defaultdict(list)` append: `d[k].append(v)`. -/
def appendA (k : String) (v : String) (l : List (String × List String)) :
    List (String × List String) :=
  setA k (((getA k l).getD []) ++ [v]) l

/-- Node execution status (`types.py` `NodeStatus`). -/
inductive NodeStatus where
  | pending
  | running
  | completed
  | failed
  | skipped
deriving DecidableEq, Repr

/-- Port data kinds (`types.py` `DataType`); carried for fidelity only. -/
inductive DataType where
  | text
  | image
  | audio
  | video
  | json
  | file
  | context
  | any
deriving DecidableEq, Repr

/-- Edge connection data (`types.py` `EdgeData`); the derived `edge_id` is
not consulted by any verified code path and is omitted. -/
structure EdgeData where
  source_node : String
  source_port : String
  target_node : String
  target_port : String
deriving DecidableEq, Repr

/-- Runtime node data (`types.py` `NodeData`); `position` is opaque UI
metadata and is omitted.  Parameter values share the value type `V`. -/
structure NodeData (V : Type) where
  node_id : String
  node_type : String
  parameters : List (String × V) := []
deriving DecidableEq, Repr

/-- Complete graph definition (`types.py` `GraphData`); `nodes` is the
insertion-ordered dict `node_id → NodeData`. -/
structure GraphData (V : Type) where
  graph_id : String
  nodes : List (String × NodeData V) := []
  edges : List EdgeData := []
deriving DecidableEq, Repr

/-- The node-id key list of the graph's node dict, in insertion order. -/
def GraphData.nodeIds {V : Type} (g : GraphData V) : List String := keysA g.nodes

/-- Validation errors produced by `GraphValidator` (`graph.py`).  The Python
code renders each as a string; the constructors carry exactly the data
interpolated into that string, so string production is modelled injectively. -/
inductive VErr where
  | cycles
  | danglingSource (node : String)
  | danglingTarget (node : String)
  | duplicateEdge (sig : String × String × String × String)
  | cannotResolve
deriving DecidableEq, Repr

namespace Kahn

/-- Adjacency map built by both `_topological_sort` copies:
`graph = defaultdict(list); for edge: graph[edge.source_node].append(edge.target_node)`. -/
def buildAdj (edges : List EdgeData) : List (String × List String) :=
  edges.foldl (fun a e => appendA e.source_node e.target_node a) []

/-- In-degree map built by both `_topological_sort` copies:
all node ids initialised to 0, then `in_degree[edge.target_node] += 1` per edge
(a `defaultdict(int)`, so a dangling target becomes a fresh key). -/
def buildIndeg (nodeIds : List String) (edges : List EdgeData) : List (String × Int) :=
  edges.foldl (fun a e => incA e.target_node a) (nodeIds.map (fun n => (n, (0 : Int))))

/-- Initial queue: `deque([node for node, degree in in_degree.items() if degree == 0])`. -/
def queueInit (indeg : List (String × Int)) : List String :=
  (indeg.filter (fun p => p.2 = 0)).map Prod.fst

/-- Main loop of Kahn's algorithm, exactly as in both `_topological_sort`
copies: pop the queue head, append it to the result, decrement each neighbour's
in-degree and enqueue neighbours whose degree reaches exactly 0.  The loop in
Python terminates because every key is enqueued at most once; `fuel` is an
upper bound on the number of iterations (proved sufficient below), so the
`fuel = 0` branch is unreachable from the states the Python code reaches. -/
def kahnLoop (adj : List (String × List String)) :
    Nat → List (String × Int) → List String → List String → List String
  | 0, _, _, res => res
  | _ + 1, _, [], res => res
  | fuel + 1, indeg, n :: q, res =>
    let step := ((getA n adj).getD []).foldl
      (fun (p : List (String × Int) × List String) t =>
        let d := (getA t p.1).getD 0 - 1
        (setA t d p.1, if d = 0 then p.2 ++ [t] else p.2))
      (indeg, q)
    kahnLoop adj fuel step.1 step.2 (res ++ [n])

end Kahn

/-- The shared body of `GraphValidator._topological_sort` and
`GraphExecutionPlanner._topological_sort` (the two copies in `graph.py` are
textually identical up to the validator's final length check). -/
def topoSortKahn {V : Type} (g : GraphData V) : List String :=
  let indeg := Kahn.buildIndeg g.nodeIds g.edges
  Kahn.kahnLoop (Kahn.buildAdj g.edges) (g.nodeIds.length + g.edges.length + 1)
    indeg (Kahn.queueInit indeg) []

namespace GraphValidator

/-- Internal topological sort for cycle detection
(`GraphValidator._topological_sort`): raises `GraphValidationError("Graph
contains cycles")` when the Kahn result does not cover every node. -/
def topological_sort {V : Type} (g : GraphData V) : Except VErr (List String) :=
  let result := topoSortKahn g
  if result.length ≠ g.nodeIds.length then Except.error VErr.cycles else Except.ok result

/-- Duplicate-edge scan of `GraphValidator.validate`: walk the edges keeping a
seen-set of (source_node, source_port, target_node, target_port) signatures. -/
def dupErrs : List EdgeData → List (String × String × String × String) → List VErr
  | [], _ => []
  | e :: rest, seen =>
    let sig := (e.source_node, e.source_port, e.target_node, e.target_port)
    (if sig ∈ seen then [VErr.duplicateEdge sig] else []) ++ dupErrs rest (sig :: seen)

/-- Dangling-edge scan of `GraphValidator.validate`: per edge, report a missing
source and then a missing target, in edge order. -/
def danglingErrs (nodeIds : List String) (edges : List EdgeData) : List VErr :=
  edges.flatMap (fun e =>
    (if e.source_node ∈ nodeIds then [] else [VErr.danglingSource e.source_node]) ++
    (if e.target_node ∈ nodeIds then [] else [VErr.danglingTarget e.target_node]))

/-- `GraphValidator.validate`: accumulate the (caught) cycle error, then the
dangling-edge errors, then the duplicate-edge errors; valid iff no errors. -/
def validate {V : Type} (g : GraphData V) : Bool × List VErr :=
  let cycleErrs : List VErr :=
    match topological_sort g with
    | Except.error e => [e]
    | Except.ok _ => []
  let errs := cycleErrs ++ danglingErrs g.nodeIds g.edges ++ dupErrs g.edges []
  (errs.isEmpty, errs)

end GraphValidator

namespace GraphExecutionPlanner

/-- `GraphExecutionPlanner.get_execution_order`: validate, raising
`GraphValidationError` with the joined error list when invalid, else run the
planner's own `_topological_sort` (same Kahn body). -/
def get_execution_order {V : Type} (g : GraphData V) : Except (List VErr) (List String) :=
  match GraphValidator.validate g with
  | (true, _) => Except.ok (topoSortKahn g)
  | (false, errs) => Except.error errs

/-- `GraphExecutionPlanner._build_dependency_graph`: reverse dependency map,
`dependencies[edge.target_node].add(edge.source_node)`.  Python uses a set; a
list suffices because only membership-style subset tests consume it. -/
def build_dependency_graph (edges : List EdgeData) : List (String × List String) :=
  edges.foldl (fun a e => appendA e.target_node e.source_node a) []

/-- Dependencies of one node under `build_dependency_graph`. -/
def depsOf (deps : List (String × List String)) (n : String) : List String :=
  (getA n deps).getD []

/-- Loop body of `get_parallel_batches`: while not all nodes processed,
collect the ready nodes (unprocessed, dependencies all processed, scanned in
node-dict order), raise `GraphValidationError("Cannot resolve dependencies -
possible cycle")` when none is ready, else emit them as the next batch.  Each
iteration processes at least one node, so `nodeIds.length + 1` fuel bounds the
Python `while` loop; the `fuel = 0` branch is unreachable. -/
def batchesLoop {V : Type} (g : GraphData V) (deps : List (String × List String)) :
    Nat → List String → Except VErr (List (List String))
  | 0, _ => Except.error VErr.cannotResolve
  | fuel + 1, processed =>
    if processed.length < g.nodeIds.length then
      let ready := g.nodeIds.filter
        (fun n => n ∉ processed ∧ ∀ d ∈ depsOf deps n, d ∈ processed)
      if ready.isEmpty then Except.error VErr.cannotResolve
      else
        match batchesLoop g deps fuel (processed ++ ready) with
        | Except.error e => Except.error e
        | Except.ok rest => Except.ok (ready :: rest)
    else Except.ok []

/-- `GraphExecutionPlanner.get_parallel_batches`. -/
def get_parallel_batches {V : Type} (g : GraphData V) : Except VErr (List (List String)) :=
  batchesLoop g (build_dependency_graph g.edges) (g.nodeIds.length + 1) []

end GraphExecutionPlanner

/-- Specification for a node input/output port (`types.py` `PortSpec`).
`default = none` is Python `default=None`. -/
structure PortSpec (V : Type) where
  name : String
  data_type : DataType := DataType.any
  required : Bool := true
  default : Option V := none
deriving DecidableEq, Repr

/-- Node type specification (`types.py` `NodeSpec`), restricted to the fields
the executor reads. -/
structure NodeSpec (V : Type) where
  node_type : String
  inputs : List (PortSpec V) := []
  outputs : List (PortSpec V) := []
deriving DecidableEq, Repr

/-- Python exceptions observable inside `GraphExecutor._execute_node`.  The
constructors carry the data interpolated into the corresponding message
strings (`str(e)` is modelled by the constructor itself):
`ExecutionError(f"Unknown node type: {t}")`,
`ExecutionError(f"Invalid inputs for node {id}. Missing required inputs: {m}")`,
and an arbitrary exception raised by a node's `execute`, rendered as its
message string. -/
inductive PyErr where
  | unknownNodeType (node_type : String)
  | invalidInputs (node_id : String) (missing : List String)
  | raised (msg : String)
deriving DecidableEq, Repr

/-- Runtime execution context (`types.py` `ExecutionContext`).  `execution_id`
is an opaque uuid and the two wall-clock timestamps are not modelled. -/
structure ExecutionContext (V : Type) where
  graph : GraphData V
  execution_inputs : List (String × V) := []
  node_outputs : List (String × List (String × V)) := []
  node_status : List (String × NodeStatus) := []
  errors : List (String × PyErr) := []
deriving DecidableEq, Repr

namespace ExecutionContext

/-- `ExecutionContext.get_input_value` inner loop over `self.graph.edges`:
on the first edge targeting `(node_id, port_name)`, return
`self.node_outputs.get(edge.source_node, {}).get(edge.source_port)` —
even when that is `None` the scan stops there. -/
def getInputGo {V : Type} (outputs : List (String × List (String × V)))
    (node_id port_name : String) : List EdgeData → Option V
  | [] => none
  | e :: rest =>
    if e.target_node = node_id ∧ e.target_port = port_name then
      getA e.source_port ((getA e.source_node outputs).getD [])
    else getInputGo outputs node_id port_name rest

/-- `ExecutionContext.get_input_value`. -/
def get_input_value {V : Type} (ctx : ExecutionContext V) (node_id port_name : String) :
    Option V :=
  getInputGo ctx.node_outputs node_id port_name ctx.graph.edges

/-- `ExecutionContext.set_node_output`. -/
def set_node_output {V : Type} (ctx : ExecutionContext V)
    (node_id port_name : String) (value : V) : ExecutionContext V :=
  let merged := setA port_name value ((getA node_id ctx.node_outputs).getD [])
  { ctx with node_outputs := setA node_id merged ctx.node_outputs }

/-- `ExecutionContext.set_node_status`. -/
def set_node_status {V : Type} (ctx : ExecutionContext V)
    (node_id : String) (status : NodeStatus) : ExecutionContext V :=
  { ctx with node_status := setA node_id status ctx.node_status }

end ExecutionContext

/-- A node implementation as the executor consumes it (`types.py` `BaseNode`):
a spec, an `execute` returning an output mapping or raising (message string),
and optionally an `execute_streaming` whose run is a finite chunk sequence
followed by an optional exception (chunks yielded before the exception are
still delivered to the consumer). -/
structure NodeImpl (V : Type) where
  spec : NodeSpec V
  execute : ExecutionContext V → NodeData V → Except String (List (String × V))
  execute_streaming : Option (ExecutionContext V → NodeData V → List V × Option String) := none

/-- `BaseNode.validate_inputs`: true iff every required input port has a value. -/
def validate_inputs {V : Type} (spec : NodeSpec V) (inputs : List (String × V)) : Bool :=
  spec.inputs.all (fun p => !p.required || (getA p.name inputs).isSome)

namespace GraphExecutor

/-- Input collection loop of `GraphExecutor._execute_node`: for each declared
input port take `get_input_value`; if absent and the port is required with a
non-None default, substitute the default; otherwise leave the port absent. -/
def collectInputs {V : Type} (ctx : ExecutionContext V) (node_id : String)
    (ports : List (PortSpec V)) : List (String × V) :=
  ports.foldl
    (fun inputs port =>
      match ExecutionContext.get_input_value ctx node_id port.name with
      | some v => setA port.name v inputs
      | none =>
        match port.required, port.default with
        | true, some d => setA port.name d inputs
        | _, _ => inputs)
    []

/-- Missing-required-port list computed for the `ExecutionError` message:
`[p.name for p in spec.inputs if p.required and p.name not in inputs]`. -/
def missingRequired {V : Type} (spec : NodeSpec V) (inputs : List (String × V)) :
    List String :=
  (spec.inputs.filter (fun p => p.required && (getA p.name inputs).isNone)).map
    (fun p => p.name)

/-- How one node's execution ends, seen from the caller of
`GraphExecutor._execute_node`: `keyError` models the uncaught `KeyError` of
`context.graph.nodes[node_id]` (raised before the `try`, so no status/error
bookkeeping happens); `failed` models the wrapped
`ExecutionError(f"Node {node_id} failed: {cause}")` re-raised by the handler. -/
inductive NodeAbort where
  | keyError (node_id : String)
  | failed (node_id : String) (cause : PyErr)
deriving DecidableEq, Repr

/-- Failure bookkeeping of the `except` handler in `_execute_node`:
status FAILED, `errors[node_id] = str(e)`, re-raise wrapped. -/
def failNode {V : Type} (ctx : ExecutionContext V) (node_id : String) (e : PyErr) :
    ExecutionContext V × Option NodeAbort :=
  let ctx := ExecutionContext.set_node_status ctx node_id NodeStatus.failed
  ({ ctx with errors := setA node_id e ctx.errors }, some (NodeAbort.failed node_id e))

/-- `GraphExecutor._execute_node`: status RUNNING, registry lookup, input
collection, input validation, node `execute`, output storage, status
COMPLETED; any exception is converted by `failNode`. -/
def executeNode {V : Type} (reg : String → Option (NodeImpl V))
    (ctx : ExecutionContext V) (node_id : String) :
    ExecutionContext V × Option NodeAbort :=
  match getA node_id ctx.graph.nodes with
  | none => (ctx, some (NodeAbort.keyError node_id))
  | some nd =>
    let ctx := ExecutionContext.set_node_status ctx node_id NodeStatus.running
    match reg nd.node_type with
    | none => failNode ctx node_id (PyErr.unknownNodeType nd.node_type)
    | some impl =>
      let inputs := collectInputs ctx node_id impl.spec.inputs
      if validate_inputs impl.spec inputs then
        match impl.execute ctx nd with
        | Except.error msg => failNode ctx node_id (PyErr.raised msg)
        | Except.ok outs =>
          let ctx := outs.foldl
            (fun c pv => ExecutionContext.set_node_output c node_id pv.1 pv.2) ctx
          (ExecutionContext.set_node_status ctx node_id NodeStatus.completed, none)
      else failNode ctx node_id
        (PyErr.invalidInputs node_id (missingRequired impl.spec inputs))

/-- The exception wrapped into `ExecutionError(f"Graph execution failed: {e}")`
by the `except` handler of the whole-graph entrypoints. -/
inductive InnerErr where
  | validation (errs : List VErr)
  | keyError (node_id : String)
  | nodeFailed (node_id : String) (cause : PyErr)
deriving DecidableEq, Repr

/-- Abort-to-wrapped-exception conversion at the whole-graph level. -/
def abortToInner : NodeAbort → InnerErr
  | NodeAbort.keyError n => InnerErr.keyError n
  | NodeAbort.failed n e => InnerErr.nodeFailed n e

/-- Initialise every node of the graph to PENDING
(`for node_id in graph.nodes: context.set_node_status(node_id, PENDING)`). -/
def pendingInit {V : Type} (ctx : ExecutionContext V) : ExecutionContext V :=
  ctx.graph.nodeIds.foldl
    (fun c n => ExecutionContext.set_node_status c n NodeStatus.pending) ctx

/-- Sequential node loop of `execute_graph`: run nodes in order, stopping at
the first exception. -/
def runOrder {V : Type} (reg : String → Option (NodeImpl V)) :
    List String → ExecutionContext V → ExecutionContext V × Option NodeAbort
  | [], ctx => (ctx, none)
  | n :: rest, ctx =>
    match executeNode reg ctx n with
    | (ctx2, none) => runOrder reg rest ctx2
    | (ctx2, some a) => (ctx2, some a)

/-- `GraphExecutor.execute_graph`: fresh context storing the supplied inputs,
all nodes PENDING, then the sequential loop over the planner's order.  A
`some` second component models the raised
`ExecutionError("Graph execution failed: ...")`; the first component is the
context state at that moment (Python drops the reference on raise). -/
def execute_graph {V : Type} (reg : String → Option (NodeImpl V))
    (g : GraphData V) (inputs : List (String × V)) :
    ExecutionContext V × Option InnerErr :=
  let ctx : ExecutionContext V :=
    pendingInit { graph := g, execution_inputs := inputs }
  match GraphExecutionPlanner.get_execution_order g with
  | Except.error errs => (ctx, some (InnerErr.validation errs))
  | Except.ok order =>
    match runOrder reg order ctx with
    | (ctx2, none) => (ctx2, none)
    | (ctx2, some a) => (ctx2, some (abortToInner a))

/-- `GraphExecutor.execute_parallel_batches`: the context is created WITHOUT
passing the supplied inputs (the Python constructor call omits
`execution_inputs`, so it defaults to `{}`); then the planner's batches run
in order.  `asyncio.gather` interleaves the nodes of one batch cooperatively;
each node's execution is embedded as the same `_execute_node` body run in
batch order, stopping at the first exception (within a batch the nodes touch
disjoint keys, so this sequentialisation is observationally faithful up to
which peers of a failing batch still finish). -/
def execute_parallel_batches {V : Type} (reg : String → Option (NodeImpl V))
    (g : GraphData V) (inputs : List (String × V)) :
    ExecutionContext V × Option InnerErr :=
  let ctx : ExecutionContext V :=
    pendingInit { graph := g, execution_inputs := [] }
  match GraphExecutionPlanner.get_parallel_batches g with
  | Except.error e => (ctx, some (InnerErr.validation [e]))
  | Except.ok batches =>
    match runOrder reg batches.flatten ctx with
    | (ctx2, none) => (ctx2, none)
    | (ctx2, some a) => (ctx2, some (abortToInner a))

/-- Streaming events yielded by `execute_graph_streaming`.  Every event dict
carries a wall-clock `timestamp` field, modelled only by presence (`Unit`). -/
inductive Event (V : Type) where
  | node_chunk (node_id : String) (chunk : V) (timestamp : Unit)
  | node_complete (node_id : String) (status : NodeStatus)
      (outputs : List (String × V)) (timestamp : Unit)
  | execution_complete (status : String)
      (outputs : List (String × List (String × V))) (timestamp : Unit)
  | execution_error (error : InnerErr) (timestamp : Unit)
deriving DecidableEq, Repr

/-- `GraphExecutor._node_supports_streaming`: the truthiness of the
`"streaming"` parameter (Python truthiness of an arbitrary value, supplied as
`truthy`), or membership in the fixed streaming-capable type set. -/
def node_supports_streaming {V : Type} (truthy : V → Bool) (nd : NodeData V) : Bool :=
  (match getA "streaming" nd.parameters with
   | some v => truthy v
   | none => false) ||
  (nd.node_type = "immutable_chat" || nd.node_type = "smart_chat")

/-- `GraphExecutor._execute_node_streaming`: like `_execute_node`, but for a
node exposing `execute_streaming` the chunk sequence is yielded first and the
final outputs then come from a second `execute` call; a node without that
method runs `execute` and yields its `"response"` output (if any) as the one
chunk.  Returns (chunks yielded before any exception, final context, abort). -/
def executeNodeStreaming {V : Type} (reg : String → Option (NodeImpl V))
    (ctx : ExecutionContext V) (node_id : String) :
    List V × ExecutionContext V × Option NodeAbort :=
  match getA node_id ctx.graph.nodes with
  | none => ([], ctx, some (NodeAbort.keyError node_id))
  | some nd =>
    let ctx := ExecutionContext.set_node_status ctx node_id NodeStatus.running
    match reg nd.node_type with
    | none => ([], failNode ctx node_id (PyErr.unknownNodeType nd.node_type))
    | some impl =>
      let inputs := collectInputs ctx node_id impl.spec.inputs
      if validate_inputs impl.spec inputs then
        match impl.execute_streaming with
        | some es =>
          match es ctx nd with
          | (chunks, some msg) => (chunks, failNode ctx node_id (PyErr.raised msg))
          | (chunks, none) =>
            match impl.execute ctx nd with
            | Except.error msg => (chunks, failNode ctx node_id (PyErr.raised msg))
            | Except.ok outs =>
              let ctx := outs.foldl
                (fun c pv => ExecutionContext.set_node_output c node_id pv.1 pv.2) ctx
              (chunks,
                ExecutionContext.set_node_status ctx node_id NodeStatus.completed, none)
        | none =>
          match impl.execute ctx nd with
          | Except.error msg => ([], failNode ctx node_id (PyErr.raised msg))
          | Except.ok outs =>
            let ctx := outs.foldl
              (fun c pv => ExecutionContext.set_node_output c node_id pv.1 pv.2) ctx
            let chunks := match getA "response" outs with
              | some v => [v]
              | none => []
            (chunks,
              ExecutionContext.set_node_status ctx node_id NodeStatus.completed, none)
      else ([], failNode ctx node_id
        (PyErr.invalidInputs node_id (missingRequired impl.spec inputs)))

/-- Per-node event block of the streaming loop: the chunk events of a
streaming-capable node, then — only when the node did not raise — its
`node_complete` event. -/
def streamOrder {V : Type} (reg : String → Option (NodeImpl V)) (truthy : V → Bool) :
    List String → ExecutionContext V →
    List (Event V) × ExecutionContext V × Option NodeAbort
  | [], ctx => ([], ctx, none)
  | n :: rest, ctx =>
    match getA n ctx.graph.nodes with
    | none => ([], ctx, some (NodeAbort.keyError n))
    | some nd =>
      let step :=
        if node_supports_streaming truthy nd then
          let r := executeNodeStreaming reg ctx n
          (r.1.map (fun c => Event.node_chunk n c ()), r.2.1, r.2.2)
        else
          let r := executeNode reg ctx n
          (([] : List (Event V)), r.1, r.2)
      match step with
      | (evs, ctx2, some a) => (evs, ctx2, some a)
      | (evs, ctx2, none) =>
        let complete := Event.node_complete n
          ((getA n ctx2.node_status).getD NodeStatus.pending)
          ((getA n ctx2.node_outputs).getD []) ()
        let r := streamOrder reg truthy rest ctx2
        (evs ++ [complete] ++ r.1, r.2.1, r.2.2)

/-- `GraphExecutor.execute_graph_streaming`: yields per-node events in the
planner's order, then a final `execution_complete` carrying all node outputs;
on any exception the handler yields an `execution_error` event and then
re-raises `ExecutionError("Graph streaming execution failed: ...")` (the
`some` third component). -/
def execute_graph_streaming {V : Type} (reg : String → Option (NodeImpl V))
    (truthy : V → Bool) (g : GraphData V) (inputs : List (String × V)) :
    List (Event V) × ExecutionContext V × Option InnerErr :=
  let ctx : ExecutionContext V :=
    pendingInit { graph := g, execution_inputs := inputs }
  match GraphExecutionPlanner.get_execution_order g with
  | Except.error errs =>
    ([Event.execution_error (InnerErr.validation errs) ()], ctx,
      some (InnerErr.validation errs))
  | Except.ok order =>
    match streamOrder reg truthy order ctx with
    | (evs, ctx2, none) =>
      (evs ++ [Event.execution_complete "completed" ctx2.node_outputs ()], ctx2, none)
    | (evs, ctx2, some a) =>
      (evs ++ [Event.execution_error (abortToInner a) ()], ctx2,
        some (abortToInner a))

end GraphExecutor

/-! ### Derived definitions, invariants and concrete examples used by the proofs -/

/-- Number of edges of `E` whose target is `t` (the total in-degree the Python
code accumulates, duplicates included). -/
def countTgt (E : List EdgeData) (t : String) : Nat :=
  E.countP (fun e => decide (e.target_node = t))

/-- Number of edges of `E` into `t` whose source is outside `res`; the loop
invariant value of `in_degree[t]` when `res` is the processed list. -/
def countOut (E : List EdgeData) (res : List String) (t : String) : Nat :=
  E.countP (fun e => decide (e.target_node = t ∧ e.source_node ∉ res))

namespace Kahn

/-- The in-degree map after the neighbour fold of one loop iteration. -/
def decAll (ns : List String) (indeg : List (String × Int)) : List (String × Int) :=
  ns.foldl (fun a t => setA t ((getA t a).getD 0 - 1) a) indeg

end Kahn

namespace Kahn

/-- The nodes newly enqueued by the neighbour fold of one loop iteration, in
enqueue order. -/
def newQ : List String → List (String × Int) → List String
  | [], _ => []
  | t :: ts, indeg =>
    let d := (getA t indeg).getD 0 - 1
    (if d = 0 then [t] else []) ++ newQ ts (setA t d indeg)

end Kahn

/-- Fixed key list of the in-degree map throughout the Kahn loop. -/
def keys0 (N : List String) (E : List EdgeData) : List String :=
  keysA (Kahn.buildIndeg N E)

/-- Invariant of the Kahn loop (`_topological_sort` in `graph.py`), relating
the in-degree map, the pending queue and the accumulated result. -/
structure KInv (N : List String) (E : List EdgeData)
    (indeg : List (String × Int)) (queue res : List String) : Prop where
  keys_eq : keysA indeg = keys0 N E
  deg : ∀ t d, getA t indeg = some d → d = (countOut E res t : Int)
  nodup : (res ++ queue).Nodup
  subk : ∀ x ∈ res ++ queue, x ∈ keys0 N E
  topo : ∀ e ∈ E, e.target_node ∈ res →
    e.source_node ∈ res ∧ res.indexOf e.source_node < res.indexOf e.target_node
  qsrc : ∀ e ∈ E, e.target_node ∈ queue → e.source_node ∈ res
  stuck : ∀ t ∈ keys0 N E, t ∉ res → t ∉ queue → countOut E res t ≠ 0

/-- Facts holding of the Kahn result once the queue has drained. -/
structure KPost (N : List String) (E : List EdgeData) (res : List String) : Prop where
  nodup : res.Nodup
  subk : ∀ x ∈ res, x ∈ keys0 N E
  topo : ∀ e ∈ E, e.target_node ∈ res →
    e.source_node ∈ res ∧ res.indexOf e.source_node < res.indexOf e.target_node
  stuck : ∀ t ∈ keys0 N E, t ∉ res → countOut E res t ≠ 0

/-- Shorthand node constructor for examples. -/
def exNode (id ty : String) : NodeData String :=
  { node_id := id, node_type := ty }

/-- Shorthand edge constructor for examples (output → input ports). -/
def exEdge (s t : String) : EdgeData :=
  { source_node := s, source_port := "output", target_node := t, target_port := "input" }

/-- Two nodes A → B; a valid graph. -/
def gLine : GraphData String :=
  { graph_id := "line",
    nodes := [("A", exNode "A" "t"), ("B", exNode "B" "t")],
    edges := [exEdge "A" "B"] }

/-- Graph with one real node and an edge to a non-existent target. -/
def gGhost : GraphData String :=
  { graph_id := "ghost",
    nodes := [("A", exNode "A" "t")],
    edges := [exEdge "A" "ghost"] }

/-- Boolean edge test between two named nodes. -/
def hasEdgeB {V : Type} (g : GraphData V) (a b : String) : Bool :=
  g.edges.any (fun e => decide (e.source_node = a) && decide (e.target_node = b))

/-- A directed cycle through the listed nodes: consecutive elements, wrapping
around at the end, are joined by edges of the graph. -/
def IsCycle {V : Type} (g : GraphData V) (c : List String) : Prop :=
  c ≠ [] ∧ ∀ i (h : i < c.length),
    hasEdgeB g (c.get ⟨i, h⟩)
      (c.get ⟨(i + 1) % c.length,
        Nat.mod_lt _ (Nat.lt_of_le_of_lt (Nat.zero_le i) h)⟩) = true

/-- A certificate of acyclicity: a rank strictly increasing along every edge
(such a rank exists exactly for the finite DAGs). -/
def RankedAcyclic {V : Type} (g : GraphData V) : Prop :=
  ∃ rank : String → Nat, ∀ e ∈ g.edges, rank e.source_node < rank e.target_node

/-- Two nodes forming a cycle A → B → A plus a third node E with two edges to
non-existent targets: the extra keys the dangling targets add to the
in-degree map make the Kahn result exactly as long as the node dict, so the
length check misses the cycle. -/
def gC4cx : GraphData String :=
  { graph_id := "c4cx",
    nodes := [("A", exNode "A" "t"), ("B", exNode "B" "t"), ("E", exNode "E" "t")],
    edges := [exEdge "A" "B", exEdge "B" "A", exEdge "E" "D1", exEdge "E" "D2"] }

/-- Two nodes A ↔ B, a pure cycle with no dangling edges. -/
def gCycAB : GraphData String :=
  { graph_id := "cyc",
    nodes := [("A", exNode "A" "t"), ("B", exNode "B" "t")],
    edges := [exEdge "A" "B", exEdge "B" "A"] }

/-- Acyclic graph with one dangling-source edge (missing → A) and one
dangling-target edge (B → ghost): the unprocessable node A and the extra
processed key ghost cancel in the length check. -/
def gC10cx : GraphData String :=
  { graph_id := "c10cx",
    nodes := [("A", exNode "A" "t"), ("B", exNode "B" "t")],
    edges := [exEdge "missing" "A", exEdge "B" "ghost"] }

/-- The diamond graph A → B, A → C, B → D, C → D. -/
def gDiamond : GraphData String :=
  { graph_id := "diamond",
    nodes := [("A", exNode "A" "t"), ("B", exNode "B" "t"),
      ("C", exNode "C" "t"), ("D", exNode "D" "t")],
    edges := [exEdge "A" "B", exEdge "A" "C", exEdge "B" "D", exEdge "C" "D"] }

/-- A node implementation with one required input port `text` and no default. -/
def needImpl : NodeImpl String :=
  { spec := { node_type := "need", inputs := [{ name := "text" }] },
    execute := fun _ _ => Except.ok [("output", "done")] }

/-- A node implementation with no inputs whose `execute` raises. -/
def boomImpl : NodeImpl String :=
  { spec := { node_type := "boom" },
    execute := fun _ _ => Except.error "kaboom" }

/-- A node implementation with no inputs that returns a constant output. -/
def constImpl : NodeImpl String :=
  { spec := { node_type := "const" },
    execute := fun _ _ => Except.ok [("output", "hello")] }

/-- Concrete registry for the witnesses. -/
def regW : String → Option (NodeImpl String) := fun t =>
  if t = "need" then some needImpl
  else if t = "boom" then some boomImpl
  else if t = "const" then some constImpl
  else none

/-- One node of type `need` whose required input is fed by nothing. -/
def gNeed : GraphData String :=
  { graph_id := "need", nodes := [("X", exNode "X" "need")], edges := [] }

/-- A failing node X (its `execute` raises "kaboom") followed by a node Y. -/
def gBoom : GraphData String :=
  { graph_id := "boom",
    nodes := [("X", exNode "X" "boom"), ("Y", exNode "Y" "const")],
    edges := [] }

/-- Recogniser for `execution_complete` events. -/
def isExecComplete {V : Type} : GraphExecutor.Event V → Bool
  | GraphExecutor.Event.execution_complete _ _ _ => true
  | _ => false

/-- Recogniser for `execution_error` events. -/
def isExecError {V : Type} : GraphExecutor.Event V → Bool
  | GraphExecutor.Event.execution_error _ _ => true
  | _ => false

/-- One node whose type is not registered: the streaming run fails. -/
def gMystery : GraphData String :=
  { graph_id := "mystery", nodes := [("X", exNode "X" "mystery")], edges := [] }

/-- One registered constant node: the streaming run succeeds. -/
def gConst : GraphData String :=
  { graph_id := "const", nodes := [("X", exNode "X" "const")], edges := [] }

/-! ### Association-list lemmas -/

theorem keysA_nil {α : Type} : keysA ([] : List (String × α)) = [] := rfl

theorem keysA_cons {α : Type} (h : String × α) (t : List (String × α)) :
    keysA (h :: t) = h.1 :: keysA t := rfl

theorem getA_setA_self {α : Type} (k : String) (v : α) (l : List (String × α)) :
    getA k (setA k v l) = some v := by
  induction l with
  | nil => simp [setA, getA]
  | cons h t ih =>
    by_cases hk : h.1 = k
    · simp [setA, getA, hk]
    · simp [setA, getA, hk, ih]

theorem getA_setA_ne {α : Type} {k k2 : String} (v : α) (l : List (String × α))
    (hne : k2 ≠ k) : getA k2 (setA k v l) = getA k2 l := by
  have hne2 : ¬k = k2 := fun h => hne h.symm
  induction l with
  | nil => simp [setA, getA, hne2]
  | cons h t ih =>
    by_cases hk : h.1 = k
    · by_cases hk2 : h.1 = k2
      · exact absurd (hk2.symm.trans hk) hne
      · simp [setA, getA, hk, hk2, hne2]
    · by_cases hk2 : h.1 = k2 <;> simp [setA, getA, hk, hk2, hne, hne2, ih]

theorem keysA_setA {α : Type} (k : String) (v : α) (l : List (String × α)) :
    keysA (setA k v l) = if k ∈ keysA l then keysA l else keysA l ++ [k] := by
  induction l with
  | nil => simp [setA, keysA]
  | cons h t ih =>
    by_cases hk : h.1 = k
    · simp [setA, keysA_cons, hk]
    · simp only [setA, if_neg hk, keysA_cons, List.mem_cons, ih]
      by_cases hm : k ∈ keysA t
      · simp [hm]
      · simp [hm, Ne.symm hk]

theorem mem_keysA_iff_getA {α : Type} (k : String) (l : List (String × α)) :
    k ∈ keysA l ↔ (getA k l).isSome := by
  induction l with
  | nil => simp [keysA, getA]
  | cons h t ih =>
    by_cases hk : h.1 = k
    · simp [keysA_cons, getA, hk]
    · simp only [keysA_cons, List.mem_cons, getA, if_neg hk, ih]
      simp [Ne.symm hk]

theorem getA_eq_none_iff {α : Type} (k : String) (l : List (String × α)) :
    getA k l = none ↔ k ∉ keysA l := by
  rw [mem_keysA_iff_getA]
  cases h : getA k l <;> simp [h]

theorem getA_mem {α : Type} {k : String} {v : α} {l : List (String × α)}
    (h : getA k l = some v) : (k, v) ∈ l := by
  induction l with
  | nil => simp [getA] at h
  | cons hd t ih =>
    by_cases hk : hd.1 = k
    · simp only [getA, if_pos hk] at h
      injection h with h2
      have he : hd = (k, v) := by
        cases hd
        simp_all
      rw [he]
      exact List.mem_cons_self _ _
    · simp only [getA, if_neg hk] at h
      exact List.mem_cons_of_mem _ (ih h)

theorem getA_of_mem_nodup {α : Type} {k : String} {v : α} {l : List (String × α)}
    (hd : (keysA l).Nodup) (h : (k, v) ∈ l) : getA k l = some v := by
  induction l with
  | nil => simp at h
  | cons hd2 t ih =>
    simp only [keysA, List.map_cons, List.nodup_cons] at hd
    rcases List.mem_cons.mp h with h1 | h1
    · subst h1
      simp [getA]
    · have hk : hd2.1 ≠ k := by
        intro he
        exact hd.1 (he ▸ (List.mem_map.mpr ⟨(k, v), h1, rfl⟩))
      simp only [getA, if_neg hk]
      exact ih hd.2 h1

theorem keysA_nodup_setA {α : Type} (k : String) (v : α) {l : List (String × α)}
    (h : (keysA l).Nodup) : (keysA (setA k v l)).Nodup := by
  rw [keysA_setA]
  by_cases hm : k ∈ keysA l
  · simpa [hm]
  · simp [hm, List.nodup_append, h]

/-! ### Characterisations of the maps built by the Kahn code -/

theorem getA_foldl_incA (E : List EdgeData) (init : List (String × Int)) (t : String) :
    getA t (E.foldl (fun a e => incA e.target_node a) init) =
      if t ∈ keysA init ∨ t ∈ E.map EdgeData.target_node
      then some ((getA t init).getD 0 + (countTgt E t : Int))
      else none := by
  induction E generalizing init with
  | nil =>
    by_cases hm : t ∈ keysA init
    · rcases Option.isSome_iff_exists.mp ((mem_keysA_iff_getA t init).mp hm) with ⟨v, hv⟩
      simp [hm, hv, countTgt]
    · simp [hm, (getA_eq_none_iff t init).mpr hm]
  | cons e E ih =>
    simp only [List.foldl_cons]
    rw [ih]
    by_cases he : e.target_node = t
    · have h1 : getA t (incA e.target_node init) = some ((getA t init).getD 0 + 1) := by
        rw [he, incA, getA_setA_self]
      have hmem : t ∈ keysA (incA e.target_node init) := by
        rw [mem_keysA_iff_getA, h1]
        rfl
      have hcnt : countTgt (e :: E) t = countTgt E t + 1 := by
        simp [countTgt, he]
      have htgt : t ∈ (e :: E).map EdgeData.target_node := by
        simp [he]
      rw [if_pos (Or.inl hmem), h1, if_pos (Or.inr htgt), hcnt]
      simp only [Option.getD_some]
      congr 1
      push_cast
      ring
    · have hne : ¬t = e.target_node := fun h => he h.symm
      have h1 : getA t (incA e.target_node init) = getA t init :=
        getA_setA_ne _ _ hne
      have hmem : t ∈ keysA (incA e.target_node init) ↔ t ∈ keysA init := by
        rw [mem_keysA_iff_getA, mem_keysA_iff_getA, h1]
      have hcnt : countTgt (e :: E) t = countTgt E t := by
        simp [countTgt, he]
      have htgts : (t ∈ (e :: E).map EdgeData.target_node) ↔ t ∈ E.map EdgeData.target_node := by
        simp only [List.map_cons, List.mem_cons]
        exact or_iff_right hne
      simp only [h1, hmem, hcnt, htgts]

theorem mem_keysA_foldl_incA (E : List EdgeData) (init : List (String × Int)) (t : String) :
    t ∈ keysA (E.foldl (fun a e => incA e.target_node a) init) ↔
      t ∈ keysA init ∨ t ∈ E.map EdgeData.target_node := by
  rw [mem_keysA_iff_getA, getA_foldl_incA]
  by_cases hc : t ∈ keysA init ∨ t ∈ E.map EdgeData.target_node <;> simp [hc]

theorem keysA_nodup_foldl_incA (E : List EdgeData) (init : List (String × Int))
    (h : (keysA init).Nodup) :
    (keysA (E.foldl (fun a e => incA e.target_node a) init)).Nodup := by
  induction E generalizing init with
  | nil => exact h
  | cons e E ih => exact ih _ (keysA_nodup_setA _ _ h)

theorem length_keysA_setA_le {α : Type} (k : String) (v : α) (l : List (String × α)) :
    (keysA (setA k v l)).length ≤ (keysA l).length + 1 := by
  rw [keysA_setA]
  by_cases hm : k ∈ keysA l <;> simp [hm]

theorem length_keysA_foldl_incA (E : List EdgeData) (init : List (String × Int)) :
    (keysA (E.foldl (fun a e => incA e.target_node a) init)).length ≤
      (keysA init).length + E.length := by
  induction E generalizing init with
  | nil => simp
  | cons e E ih =>
    have h2 : (keysA (incA e.target_node init)).length ≤ (keysA init).length + 1 := by
      rw [incA]
      exact length_keysA_setA_le _ _ _
    have h3 := ih (incA e.target_node init)
    simp only [List.foldl_cons, List.length_cons]
    omega

theorem keysA_map_zero (N : List String) : keysA (N.map (fun n => (n, (0 : Int)))) = N := by
  induction N with
  | nil => rfl
  | cons n N ih =>
    rw [List.map_cons, keysA_cons, ih]

theorem getA_map_zero (N : List String) (t : String) :
    getA t (N.map (fun n => (n, (0 : Int)))) = if t ∈ N then some 0 else none := by
  induction N with
  | nil => simp [getA]
  | cons n N ih =>
    by_cases hn : n = t
    · simp [getA, hn]
    · simp only [List.map_cons, getA, if_neg hn, ih, List.mem_cons]
      simp [Ne.symm hn]

theorem getA_buildIndeg (N : List String) (E : List EdgeData) (t : String) :
    getA t (Kahn.buildIndeg N E) =
      if t ∈ N ∨ t ∈ E.map EdgeData.target_node
      then some ((countTgt E t : Int)) else none := by
  rw [Kahn.buildIndeg, getA_foldl_incA, keysA_map_zero, getA_map_zero]
  have h0 : ((if t ∈ N then some (0 : Int) else none).getD 0) = 0 := by
    by_cases h : t ∈ N <;> simp [h]
  simp [h0]

theorem mem_keysA_buildIndeg (N : List String) (E : List EdgeData) (t : String) :
    t ∈ keysA (Kahn.buildIndeg N E) ↔ t ∈ N ∨ t ∈ E.map EdgeData.target_node := by
  rw [Kahn.buildIndeg, mem_keysA_foldl_incA, keysA_map_zero]

theorem keysA_nodup_buildIndeg (N : List String) (E : List EdgeData) (h : N.Nodup) :
    (keysA (Kahn.buildIndeg N E)).Nodup := by
  apply keysA_nodup_foldl_incA
  rw [keysA_map_zero]
  exact h

theorem length_keysA_buildIndeg (N : List String) (E : List EdgeData) :
    (keysA (Kahn.buildIndeg N E)).length ≤ N.length + E.length := by
  have h := length_keysA_foldl_incA E (N.map (fun n => (n, (0 : Int))))
  rw [keysA_map_zero] at h
  exact h

theorem getA_foldl_appendA_src (E : List EdgeData) (init : List (String × List String))
    (s : String) :
    (getA s (E.foldl (fun a e => appendA e.source_node e.target_node a) init)).getD [] =
      ((getA s init).getD []) ++
        (E.filter (fun e => decide (e.source_node = s))).map EdgeData.target_node := by
  induction E generalizing init with
  | nil => simp
  | cons e E ih =>
    simp only [List.foldl_cons]
    rw [ih]
    by_cases he : e.source_node = s
    · have h1 : getA s (appendA e.source_node e.target_node init) =
          some (((getA s init).getD []) ++ [e.target_node]) := by
        rw [he, appendA, getA_setA_self]
      rw [h1]
      simp [he]
    · have h1 : getA s (appendA e.source_node e.target_node init) = getA s init :=
        getA_setA_ne _ _ (fun h => he h.symm)
      rw [h1]
      simp [he]

theorem adjList_buildAdj (E : List EdgeData) (s : String) :
    (getA s (Kahn.buildAdj E)).getD [] =
      (E.filter (fun e => decide (e.source_node = s))).map EdgeData.target_node := by
  rw [Kahn.buildAdj, getA_foldl_appendA_src]
  simp [getA]

theorem getA_foldl_appendA_tgt (E : List EdgeData) (init : List (String × List String))
    (t : String) :
    (getA t (E.foldl (fun a e => appendA e.target_node e.source_node a) init)).getD [] =
      ((getA t init).getD []) ++
        (E.filter (fun e => decide (e.target_node = t))).map EdgeData.source_node := by
  induction E generalizing init with
  | nil => simp
  | cons e E ih =>
    simp only [List.foldl_cons]
    rw [ih]
    by_cases he : e.target_node = t
    · have h1 : getA t (appendA e.target_node e.source_node init) =
          some (((getA t init).getD []) ++ [e.source_node]) := by
        rw [he, appendA, getA_setA_self]
      rw [h1]
      simp [he]
    · have h1 : getA t (appendA e.target_node e.source_node init) = getA t init :=
        getA_setA_ne _ _ (fun h => he h.symm)
      rw [h1]
      simp [he]

theorem depsOf_build_dependency_graph (E : List EdgeData) (t : String) :
    GraphExecutionPlanner.depsOf (GraphExecutionPlanner.build_dependency_graph E) t =
      (E.filter (fun e => decide (e.target_node = t))).map EdgeData.source_node := by
  rw [GraphExecutionPlanner.depsOf, GraphExecutionPlanner.build_dependency_graph,
    getA_foldl_appendA_tgt]
  simp [getA]

/-! ### The Kahn loop invariant -/

namespace Kahn

theorem foldStep_eq (ns : List String) (indeg : List (String × Int)) (q : List String) :
    ns.foldl
      (fun (p : List (String × Int) × List String) t =>
        let d := (getA t p.1).getD 0 - 1
        (setA t d p.1, if d = 0 then p.2 ++ [t] else p.2))
      (indeg, q) = (decAll ns indeg, q ++ newQ ns indeg) := by
  induction ns generalizing indeg q with
  | nil => simp [decAll, newQ]
  | cons t ts ih =>
    simp only [List.foldl_cons, decAll, newQ]
    rw [ih]
    by_cases hd : (getA t indeg).getD 0 - 1 = 0
    · simp [hd, decAll]
    · simp [hd, decAll]

theorem keysA_decAll (ns : List String) (indeg : List (String × Int))
    (hsub : ∀ t ∈ ns, t ∈ keysA indeg) :
    keysA (decAll ns indeg) = keysA indeg := by
  induction ns generalizing indeg with
  | nil => rfl
  | cons t ts ih =>
    have ht : t ∈ keysA indeg := hsub t (List.mem_cons_self _ _)
    have hk : keysA (setA t ((getA t indeg).getD 0 - 1) indeg) = keysA indeg := by
      rw [keysA_setA, if_pos ht]
    rw [decAll, List.foldl_cons, ← decAll, ih, hk]
    intro x hx
    rw [hk]
    exact hsub x (List.mem_cons_of_mem _ hx)

theorem getA_decAll (ns : List String) (indeg : List (String × Int)) (t : String)
    (hsub : ∀ x ∈ ns, x ∈ keysA indeg) :
    getA t (decAll ns indeg) = (getA t indeg).map (fun v => v - (ns.count t : Int)) := by
  induction ns generalizing indeg with
  | nil => cases h : getA t indeg <;> simp [decAll, h]
  | cons u ts ih =>
    have hu : u ∈ keysA indeg := hsub u (List.mem_cons_self _ _)
    rcases Option.isSome_iff_exists.mp ((mem_keysA_iff_getA u indeg).mp hu) with ⟨du, hdu⟩
    have hget : getA u indeg = some du := hdu
    have hsub2 : ∀ x ∈ ts, x ∈ keysA (setA u ((getA u indeg).getD 0 - 1) indeg) := by
      intro x hx
      rw [keysA_setA, if_pos hu]
      exact hsub x (List.mem_cons_of_mem _ hx)
    rw [decAll, List.foldl_cons, ← decAll, ih _ hsub2]
    by_cases htu : t = u
    · subst htu
      rw [getA_setA_self, hget]
      simp only [Option.getD_some, Option.map_some', List.count_cons_self, Option.some.injEq]
      push_cast
      ring
    · rw [getA_setA_ne _ _ htu]
      have hc : (u :: ts).count t = ts.count t := List.count_cons_of_ne htu _
      rw [hc]

theorem mem_newQ (ns : List String) (indeg : List (String × Int)) (t : String)
    (hsub : ∀ x ∈ ns, x ∈ keysA indeg) :
    t ∈ newQ ns indeg ↔
      ∃ d, getA t indeg = some d ∧ 0 < d ∧ d ≤ (ns.count t : Int) := by
  induction ns generalizing indeg with
  | nil =>
    simp only [newQ, List.not_mem_nil, false_iff]
    rintro ⟨d, _, hd1, hd2⟩
    simp at hd2
    omega
  | cons u ts ih =>
    have hu : u ∈ keysA indeg := hsub u (List.mem_cons_self _ _)
    rcases Option.isSome_iff_exists.mp ((mem_keysA_iff_getA u indeg).mp hu) with ⟨du, hdu⟩
    have hsub2 : ∀ x ∈ ts, x ∈ keysA (setA u (du - 1) indeg) := by
      intro x hx
      rw [keysA_setA, if_pos hu]
      exact hsub x (List.mem_cons_of_mem _ hx)
    have hunf : newQ (u :: ts) indeg =
        (if du - 1 = 0 then [u] else []) ++ newQ ts (setA u (du - 1) indeg) := by
      rw [newQ]
      simp only [hdu, Option.getD_some]
    rw [hunf]
    have ihh := ih (setA u (du - 1) indeg) hsub2
    by_cases htu : t = u
    · subst htu
      rw [getA_setA_self] at ihh
      rw [List.mem_append, ihh, hdu, List.count_cons_self]
      constructor
      · rintro (h | ⟨d, hd, h1, h2⟩)
        · have hz : du - 1 = 0 := by
            by_contra hne
            simp [hne] at h
          exact ⟨du, rfl, by omega, by push_cast; omega⟩
        · injection hd with hd
          refine ⟨du, rfl, by omega, ?_⟩
          push_cast at h2 ⊢
          omega
      · rintro ⟨d, hd, h1, h2⟩
        injection hd with hd
        subst hd
        push_cast at h2
        by_cases hone : du = 1
        · left
          simp [hone]
        · right
          exact ⟨du - 1, rfl, by omega, by omega⟩
    · rw [getA_setA_ne _ _ htu] at ihh
      rw [List.mem_append, ihh, List.count_cons_of_ne htu]
      constructor
      · rintro (h | h)
        · by_cases hz : du - 1 = 0
          · rw [if_pos hz, List.mem_singleton] at h
            exact absurd h htu
          · rw [if_neg hz] at h
            simp at h
        · exact h
      · intro h
        exact Or.inr h

theorem nodup_newQ (ns : List String) (indeg : List (String × Int))
    (hsub : ∀ x ∈ ns, x ∈ keysA indeg) : (newQ ns indeg).Nodup := by
  induction ns generalizing indeg with
  | nil => simp [newQ]
  | cons u ts ih =>
    have hu : u ∈ keysA indeg := hsub u (List.mem_cons_self _ _)
    rcases Option.isSome_iff_exists.mp ((mem_keysA_iff_getA u indeg).mp hu) with ⟨du, hdu⟩
    have hsub2 : ∀ x ∈ ts, x ∈ keysA (setA u (du - 1) indeg) := by
      intro x hx
      rw [keysA_setA, if_pos hu]
      exact hsub x (List.mem_cons_of_mem _ hx)
    have hunf : newQ (u :: ts) indeg =
        (if du - 1 = 0 then [u] else []) ++ newQ ts (setA u (du - 1) indeg) := by
      rw [newQ]
      simp only [hdu, Option.getD_some]
    rw [hunf]
    by_cases hd : du - 1 = 0
    · rw [if_pos hd, List.singleton_append, List.nodup_cons]
      refine ⟨?_, ih _ hsub2⟩
      rw [mem_newQ _ _ _ hsub2]
      rintro ⟨d, hget, h1, -⟩
      rw [getA_setA_self] at hget
      injection hget with hget
      omega
    · rw [if_neg hd, List.nil_append]
      exact ih _ hsub2

theorem mem_newQ_sub (ns : List String) (indeg : List (String × Int)) (t : String)
    (hsub : ∀ x ∈ ns, x ∈ keysA indeg) (h : t ∈ newQ ns indeg) : t ∈ ns := by
  rcases (mem_newQ ns indeg t hsub).mp h with ⟨d, -, h1, h2⟩
  have hc : 0 < ns.count t := by
    by_contra hc
    push_neg at hc
    have hz : ns.count t = 0 := by omega
    rw [hz] at h2
    simp at h2
    omega
  exact List.count_pos_iff.mp hc

end Kahn

theorem countOut_nil_res (E : List EdgeData) (t : String) :
    countOut E [] t = countTgt E t := by
  apply List.countP_congr
  intro e _
  simp

theorem countOut_eq_zero_iff (E : List EdgeData) (res : List String) (t : String) :
    countOut E res t = 0 ↔ ∀ e ∈ E, e.target_node = t → e.source_node ∈ res := by
  rw [countOut, List.countP_eq_zero]
  constructor
  · intro h e he htgt
    by_contra hsrc
    have h2 := h e he
    simp [htgt, hsrc] at h2
  · intro h e he
    simp only [decide_eq_true_eq, not_and]
    intro htgt hsrc
    exact hsrc (h e he htgt)

theorem countTgt_eq_zero_iff (E : List EdgeData) (t : String) :
    countTgt E t = 0 ↔ ∀ e ∈ E, e.target_node ≠ t := by
  rw [countTgt, List.countP_eq_zero]
  simp

theorem countOut_append (E : List EdgeData) (res : List String) (n t : String)
    (hn : n ∉ res) :
    countOut E res t =
      countOut E (res ++ [n]) t +
        E.countP (fun e => decide (e.source_node = n ∧ e.target_node = t)) := by
  induction E with
  | nil => rfl
  | cons e E ih =>
    simp only [countOut, List.countP_cons] at ih ⊢
    rw [← countOut, ← countOut] at ih ⊢
    rw [ih]
    by_cases h1 : e.target_node = t
    · by_cases h2 : e.source_node = n
      · have h3 : e.source_node ∉ res := by
          rw [h2]
          exact hn
        simp [h1, h2, h3, hn]
        omega
      · by_cases h3 : e.source_node ∈ res
        · simp [h1, h2, h3]
        · simp [h1, h2, h3]
          omega
    · simp [h1]

theorem mem_keys0 (N : List String) (E : List EdgeData) (t : String) :
    t ∈ keys0 N E ↔ t ∈ N ∨ t ∈ E.map EdgeData.target_node :=
  mem_keysA_buildIndeg N E t

theorem mem_queueInit (l : List (String × Int)) (x : String) :
    x ∈ Kahn.queueInit l ↔ ∃ d, (x, d) ∈ l ∧ d = 0 := by
  rw [Kahn.queueInit]
  constructor
  · intro h
    rcases List.mem_map.mp h with ⟨pr, hpr, hx⟩
    rcases List.mem_filter.mp hpr with ⟨hmem, hp⟩
    refine ⟨pr.2, ?_, ?_⟩
    · rw [← hx]
      exact hmem
    · exact of_decide_eq_true hp
  · rintro ⟨d, hmem, rfl⟩
    apply List.mem_map.mpr
    refine ⟨(x, 0), List.mem_filter.mpr ⟨hmem, by simp⟩, rfl⟩

theorem kinv_step (N : List String) (E : List EdgeData)
    (indeg : List (String × Int)) (q res : List String) (n : String)
    (h : KInv N E indeg (n :: q) res) :
    KInv N E (Kahn.decAll ((getA n (Kahn.buildAdj E)).getD []) indeg)
      (q ++ Kahn.newQ ((getA n (Kahn.buildAdj E)).getD []) indeg)
      (res ++ [n]) := by
  set ns := (getA n (Kahn.buildAdj E)).getD [] with hns
  have hns_eq : ns =
      (E.filter (fun e => decide (e.source_node = n))).map EdgeData.target_node :=
    adjList_buildAdj E n
  have hns_tgt : ∀ t ∈ ns, t ∈ E.map EdgeData.target_node := by
    intro t ht
    rw [hns_eq] at ht
    rcases List.mem_map.mp ht with ⟨e, he, rfl⟩
    exact List.mem_map.mpr ⟨e, (List.mem_filter.mp he).1, rfl⟩
  have hns_sub : ∀ t ∈ ns, t ∈ keysA indeg := by
    intro t ht
    rw [h.keys_eq, mem_keys0]
    exact Or.inr (hns_tgt t ht)
  have hcount : ∀ t, ns.count t =
      E.countP (fun e => decide (e.source_node = n ∧ e.target_node = t)) := by
    intro t
    rw [hns_eq, List.count_eq_countP, List.countP_map, List.countP_filter]
    apply List.countP_congr
    intro e _
    simp only [Function.comp_apply, Bool.and_eq_true, beq_iff_eq, decide_eq_true_eq]
    exact and_comm
  have hnodup := h.nodup
  have heq1 : res ++ n :: q = (res ++ [n]) ++ q := by simp
  have hnodup2 : ((res ++ [n]) ++ q).Nodup := heq1 ▸ hnodup
  have hnres : n ∉ res := by
    rcases List.nodup_append.mp hnodup with ⟨-, -, hdisj⟩
    intro hmem
    exact hdisj hmem (List.mem_cons_self n q)
  have hco : ∀ t, countOut E res t = countOut E (res ++ [n]) t + ns.count t := by
    intro t
    rw [hcount t]
    exact countOut_append E res n t hnres
  have hnewq_out : ∀ t ∈ Kahn.newQ ns indeg,
      0 < countOut E res t ∧ countOut E (res ++ [n]) t = 0 := by
    intro t ht
    rcases (Kahn.mem_newQ ns indeg t hns_sub).mp ht with ⟨d, hget, h1, h2⟩
    have hd := h.deg t d hget
    have hct := hco t
    constructor
    · omega
    · omega
  have hnewq_fresh : ∀ t ∈ Kahn.newQ ns indeg, t ∉ res ∧ t ∉ n :: q := by
    intro t ht
    rcases hnewq_out t ht with ⟨hpos, -⟩
    constructor
    · intro hmem
      have hz : countOut E res t = 0 := by
        apply (countOut_eq_zero_iff E res t).mpr
        intro e he htgt
        exact (h.topo e he (by rw [htgt]; exact hmem)).1
      omega
    · intro hmem
      have hz : countOut E res t = 0 := by
        apply (countOut_eq_zero_iff E res t).mpr
        intro e he htgt
        exact h.qsrc e he (by rw [htgt]; exact hmem)
      omega
  refine ⟨?_, ?_, ?_, ?_, ?_, ?_, ?_⟩
  · rw [Kahn.keysA_decAll ns indeg hns_sub, h.keys_eq]
  · intro t d hget
    rw [Kahn.getA_decAll ns indeg t hns_sub] at hget
    cases hg : getA t indeg with
    | none =>
      rw [hg] at hget
      simp at hget
    | some d0 =>
      rw [hg] at hget
      simp only [Option.map_some'] at hget
      injection hget with hget
      have hd0 := h.deg t d0 hg
      have hct := hco t
      omega
  · have hnq : (Kahn.newQ ns indeg).Nodup := Kahn.nodup_newQ ns indeg hns_sub
    have hdisj : ∀ t ∈ Kahn.newQ ns indeg, t ∉ (res ++ [n]) ++ q := by
      intro t ht hmem
      rcases hnewq_fresh t ht with ⟨hr, hq⟩
      rcases List.mem_append.mp hmem with hm | hm
      · rcases List.mem_append.mp hm with hm2 | hm2
        · exact hr hm2
        · rw [List.mem_singleton] at hm2
          exact hq (by rw [hm2]; exact List.mem_cons_self n q)
      · exact hq (List.mem_cons_of_mem _ hm)
    have hbig : (((res ++ [n]) ++ q) ++ Kahn.newQ ns indeg).Nodup := by
      apply List.Nodup.append hnodup2 hnq
      intro a ha hb
      exact hdisj a hb ha
    simpa [List.append_assoc] using hbig
  · intro x hx
    rcases List.mem_append.mp hx with hm | hm
    · rcases List.mem_append.mp hm with hm2 | hm2
      · exact h.subk x (List.mem_append_left _ hm2)
      · rw [List.mem_singleton] at hm2
        subst hm2
        exact h.subk x (List.mem_append_right _ (List.mem_cons_self _ _))
    · rcases List.mem_append.mp hm with hm2 | hm2
      · exact h.subk x (List.mem_append_right _ (List.mem_cons_of_mem _ hm2))
      · rw [mem_keys0]
        exact Or.inr (hns_tgt x (Kahn.mem_newQ_sub ns indeg x hns_sub hm2))
  · intro e he htgt
    rcases List.mem_append.mp htgt with hm | hm
    · rcases h.topo e he hm with ⟨hsrc, hidx⟩
      refine ⟨List.mem_append_left _ hsrc, ?_⟩
      rw [List.indexOf_append_of_mem hsrc, List.indexOf_append_of_mem hm]
      exact hidx
    · rw [List.mem_singleton] at hm
      have hsrc : e.source_node ∈ res :=
        h.qsrc e he (by rw [hm]; exact List.mem_cons_self n q)
      refine ⟨List.mem_append_left _ hsrc, ?_⟩
      rw [List.indexOf_append_of_mem hsrc, hm, List.indexOf_append_of_not_mem hnres]
      have h1 : res.indexOf e.source_node < res.length :=
        List.indexOf_lt_length.mpr hsrc
      simp only [List.indexOf_cons_self]
      omega
  · intro e he htgt
    rcases List.mem_append.mp htgt with hm | hm
    · exact List.mem_append_left _ (h.qsrc e he (List.mem_cons_of_mem _ hm))
    · rcases hnewq_out _ hm with ⟨-, hz⟩
      exact (countOut_eq_zero_iff E _ _).mp hz e he rfl
  · intro t ht hr hq
    have ht1 : t ∉ res := fun hm => hr (List.mem_append_left _ hm)
    have ht2 : t ≠ n := fun hm =>
      hr (List.mem_append_right _ (by rw [hm]; exact List.mem_singleton.mpr rfl))
    have ht3 : t ∉ q := fun hm => hq (List.mem_append_left _ hm)
    have ht4 : t ∉ Kahn.newQ ns indeg := fun hm => hq (List.mem_append_right _ hm)
    have hold : countOut E res t ≠ 0 := by
      apply h.stuck t ht ht1
      intro hm
      rcases List.mem_cons.mp hm with hm2 | hm2
      · exact ht2 hm2
      · exact ht3 hm2
    have hksome : (getA t indeg).isSome = true := by
      rw [← mem_keysA_iff_getA, h.keys_eq]
      exact ht
    rcases Option.isSome_iff_exists.mp hksome with ⟨d0, hget⟩
    have hd0 := h.deg t d0 hget
    intro hz
    apply ht4
    rw [Kahn.mem_newQ ns indeg t hns_sub]
    refine ⟨d0, hget, ?_, ?_⟩
    · omega
    · have hct := hco t
      omega

theorem kinv_init (N : List String) (E : List EdgeData) (hN : N.Nodup) :
    KInv N E (Kahn.buildIndeg N E) (Kahn.queueInit (Kahn.buildIndeg N E)) [] := by
  have hkeysnd : (keysA (Kahn.buildIndeg N E)).Nodup := keysA_nodup_buildIndeg N E hN
  have hqsub : List.Sublist (Kahn.queueInit (Kahn.buildIndeg N E))
      (keysA (Kahn.buildIndeg N E)) :=
    List.Sublist.map Prod.fst (List.filter_sublist _)
  refine ⟨rfl, ?_, ?_, ?_, ?_, ?_, ?_⟩
  · intro t d h
    rw [getA_buildIndeg] at h
    by_cases hc : t ∈ N ∨ t ∈ E.map EdgeData.target_node
    · rw [if_pos hc] at h
      injection h with h
      rw [← h, countOut_nil_res]
    · rw [if_neg hc] at h
      exact absurd h (by simp)
  · exact hqsub.nodup hkeysnd
  · intro x hx
    rw [List.nil_append] at hx
    exact hqsub.subset hx
  · intro e _ hmem
    simp at hmem
  · intro e he hmem
    exfalso
    rcases (mem_queueInit _ _).mp hmem with ⟨d, hd, rfl⟩
    have hget : getA e.target_node (Kahn.buildIndeg N E) = some 0 :=
      getA_of_mem_nodup hkeysnd hd
    rw [getA_buildIndeg] at hget
    have htin : e.target_node ∈ E.map EdgeData.target_node :=
      List.mem_map.mpr ⟨e, he, rfl⟩
    rw [if_pos (Or.inr htin)] at hget
    injection hget with hget
    have hz : countTgt E e.target_node = 0 := by
      omega
    exact (countTgt_eq_zero_iff E _).mp hz e he rfl
  · intro t ht hr hq
    rw [countOut_nil_res]
    intro hz
    apply hq
    apply (mem_queueInit _ _).mpr
    refine ⟨0, ?_, rfl⟩
    apply getA_mem
    rw [getA_buildIndeg, if_pos ((mem_keys0 N E t).mp ht), hz]
    rfl

theorem kahnLoop_post (N : List String) (E : List EdgeData) :
    ∀ (fuel : Nat) (indeg : List (String × Int)) (queue res : List String),
      KInv N E indeg queue res →
      (keys0 N E).length + 1 ≤ fuel + res.length →
      KPost N E (Kahn.kahnLoop (Kahn.buildAdj E) fuel indeg queue res) := by
  intro fuel
  induction fuel with
  | zero =>
    intro indeg queue res hinv hlen
    exfalso
    have hnd : res.Nodup := (List.nodup_append.mp hinv.nodup).1
    have hsub : res ⊆ keys0 N E := fun x hx => hinv.subk x (List.mem_append_left _ hx)
    have := (hnd.subperm hsub).length_le
    omega
  | succ fuel ih =>
    intro indeg queue res hinv hlen
    match queue with
    | [] =>
      rw [Kahn.kahnLoop]
      refine ⟨(List.nodup_append.mp hinv.nodup).1, ?_, hinv.topo, ?_⟩
      · intro x hx
        exact hinv.subk x (List.mem_append_left _ hx)
      · intro t ht hr
        exact hinv.stuck t ht hr (List.not_mem_nil t)
    | n :: q =>
      have hstep := kinv_step N E indeg q res n hinv
      rw [Kahn.kahnLoop]
      simp only [Kahn.foldStep_eq]
      apply ih _ _ _ hstep
      rw [List.length_append, List.length_singleton]
      omega

theorem topoSortKahn_post {V : Type} (g : GraphData V) (hN : g.nodeIds.Nodup) :
    KPost g.nodeIds g.edges (topoSortKahn g) := by
  have hlen := length_keysA_buildIndeg g.nodeIds g.edges
  apply kahnLoop_post g.nodeIds g.edges _ _ _ _ (kinv_init g.nodeIds g.edges hN)
  simp only [List.length_nil]
  rw [keys0] at *
  omega

/-! ### Validate decomposition -/

theorem validate_snd {V : Type} (g : GraphData V) :
    (GraphValidator.validate g).2 =
      (match GraphValidator.topological_sort g with
        | Except.error e => [e]
        | Except.ok _ => []) ++
        GraphValidator.danglingErrs g.nodeIds g.edges ++
        GraphValidator.dupErrs g.edges [] := rfl

theorem validate_fst {V : Type} (g : GraphData V) :
    (GraphValidator.validate g).1 = (GraphValidator.validate g).2.isEmpty := rfl

theorem mem_danglingErrs_target {V : Type} (g : GraphData V) (e : EdgeData)
    (he : e ∈ g.edges) (h : e.target_node ∉ g.nodeIds) :
    VErr.danglingTarget e.target_node ∈ (GraphValidator.validate g).2 := by
  rw [validate_snd]
  apply List.mem_append_left
  apply List.mem_append_right
  rw [GraphValidator.danglingErrs, List.mem_flatMap]
  refine ⟨e, he, ?_⟩
  apply List.mem_append_right
  rw [if_neg h]
  exact List.mem_singleton.mpr rfl

theorem mem_danglingErrs_source {V : Type} (g : GraphData V) (e : EdgeData)
    (he : e ∈ g.edges) (h : e.source_node ∉ g.nodeIds) :
    VErr.danglingSource e.source_node ∈ (GraphValidator.validate g).2 := by
  rw [validate_snd]
  apply List.mem_append_left
  apply List.mem_append_right
  rw [GraphValidator.danglingErrs, List.mem_flatMap]
  refine ⟨e, he, ?_⟩
  apply List.mem_append_left
  rw [if_neg h]
  exact List.mem_singleton.mpr rfl

theorem cycles_mem_of_length_ne {V : Type} (g : GraphData V)
    (h : (topoSortKahn g).length ≠ g.nodeIds.length) :
    VErr.cycles ∈ (GraphValidator.validate g).2 := by
  have hts : GraphValidator.topological_sort g = Except.error VErr.cycles := by
    show (if (topoSortKahn g).length ≠ g.nodeIds.length
      then Except.error VErr.cycles else Except.ok (topoSortKahn g)) = Except.error VErr.cycles
    rw [if_pos h]
  rw [validate_snd, hts]
  apply List.mem_append_left
  apply List.mem_append_left
  exact List.mem_singleton.mpr rfl

theorem validate_true_parts {V : Type} (g : GraphData V)
    (h : (GraphValidator.validate g).1 = true) :
    (topoSortKahn g).length = g.nodeIds.length ∧
      ∀ e ∈ g.edges, e.source_node ∈ g.nodeIds ∧ e.target_node ∈ g.nodeIds := by
  have h2 : (GraphValidator.validate g).2 = [] := by
    rw [validate_fst] at h
    exact List.isEmpty_iff.mp h
  constructor
  · by_contra hne
    have hm := cycles_mem_of_length_ne g hne
    rw [h2] at hm
    simp at hm
  · intro e he
    constructor
    · by_contra hs
      have hm := mem_danglingErrs_source g e he hs
      rw [h2] at hm
      simp at hm
    · by_contra hs
      have hm := mem_danglingErrs_target g e he hs
      rw [h2] at hm
      simp at hm

theorem geo_eq_of_validate_true {V : Type} (g : GraphData V)
    (h : (GraphValidator.validate g).1 = true) :
    GraphExecutionPlanner.get_execution_order g = Except.ok (topoSortKahn g) := by
  rw [GraphExecutionPlanner.get_execution_order]
  rcases hv : GraphValidator.validate g with ⟨fst, snd⟩
  rw [hv] at h
  simp only at h
  subst h
  rfl

theorem geo_eq_of_validate_false {V : Type} (g : GraphData V)
    (h : (GraphValidator.validate g).1 = false) :
    GraphExecutionPlanner.get_execution_order g =
      Except.error (GraphValidator.validate g).2 := by
  rw [GraphExecutionPlanner.get_execution_order]
  rcases hv : GraphValidator.validate g with ⟨fst, snd⟩
  rw [hv] at h
  simp only at h
  subst h
  rfl

/-! ### Concrete example graphs used by witnesses and counterexamples -/

/-! ### C1 -/

theorem geo_ok_order_perm_topo {V : Type} (g : GraphData V)
    (order : List String) (hN : g.nodeIds.Nodup)
    (h : GraphExecutionPlanner.get_execution_order g = Except.ok order) :
    order.Perm g.nodeIds ∧
      ∀ e ∈ g.edges, order.indexOf e.source_node < order.indexOf e.target_node := by
  have hval : (GraphValidator.validate g).1 = true := by
    rcases hb : (GraphValidator.validate g).1 with _ | _
    · rw [geo_eq_of_validate_false g hb] at h
      exact absurd h (by simp)
    · rfl
  have horder : order = topoSortKahn g := by
    rw [geo_eq_of_validate_true g hval] at h
    injection h with h
    exact h.symm
  obtain ⟨hlen, hdang⟩ := validate_true_parts g hval
  have hpost := topoSortKahn_post g hN
  subst horder
  have hsubN : topoSortKahn g ⊆ g.nodeIds := by
    intro x hx
    have hk := hpost.subk x hx
    rw [mem_keys0] at hk
    rcases hk with hk | hk
    · exact hk
    · rcases List.mem_map.mp hk with ⟨e, he, rfl⟩
      exact (hdang e he).2
  have hperm : (topoSortKahn g).Perm g.nodeIds :=
    (hpost.nodup.subperm hsubN).perm_of_length_le (le_of_eq hlen.symm)
  refine ⟨hperm, ?_⟩
  intro e he
  have htgtres : e.target_node ∈ topoSortKahn g :=
    hperm.mem_iff.mpr (hdang e he).2
  exact (hpost.topo e he htgtres).2

/-- C1: for every graph the planner accepts (`get_execution_order` returns an
order, i.e. the validator found no cycle, no dangling edge and no duplicate
edge), the returned list is a permutation of the graph's node ids — each
appears exactly once — and for every edge the source node appears strictly
before the target node in the list. -/
theorem c1_execution_order_complete_topological {V : Type} (g : GraphData V)
    (order : List String) (hN : g.nodeIds.Nodup)
    (h : GraphExecutionPlanner.get_execution_order g = Except.ok order) :
    order.Perm g.nodeIds ∧
      ∀ e ∈ g.edges, order.indexOf e.source_node < order.indexOf e.target_node :=
  geo_ok_order_perm_topo g order hN h

/-- Witness for C1 at the concrete two-node graph A → B. -/
theorem c1_witness :
    (["A", "B"].Perm gLine.nodeIds ∧
      ∀ e ∈ gLine.edges,
        ["A", "B"].indexOf e.source_node < ["A", "B"].indexOf e.target_node) :=
  c1_execution_order_complete_topological gLine ["A", "B"] (by decide) (by rfl)

/-! ### C5 -/

theorem count_dupErrs_not_dup (E : List EdgeData)
    (seen : List (String × String × String × String)) (v : VErr)
    (hv : ∀ sig, v ≠ VErr.duplicateEdge sig) :
    (GraphValidator.dupErrs E seen).count v = 0 := by
  induction E generalizing seen with
  | nil => rfl
  | cons e E ih =>
    rw [GraphValidator.dupErrs, List.count_append, ih]
    by_cases hs : (e.source_node, e.source_port, e.target_node, e.target_port) ∈ seen
    · rw [if_pos hs, List.count_singleton, if_neg ?_]
      simp only [beq_iff_eq]
      intro hc
      exact hv _ hc.symm
    · rw [if_neg hs]
      rfl

theorem count_danglingErrs_target (N : List String) (E : List EdgeData) (m : String)
    (hm : m ∉ N) :
    (GraphValidator.danglingErrs N E).count (VErr.danglingTarget m) =
      E.countP (fun e => decide (e.target_node = m)) := by
  induction E with
  | nil => rfl
  | cons e E ih =>
    rw [GraphValidator.danglingErrs, List.flatMap_cons, List.count_append,
      ← GraphValidator.danglingErrs, ih, List.count_append, List.countP_cons]
    have hsrc : (if e.source_node ∈ N then ([] : List VErr)
        else [VErr.danglingSource e.source_node]).count (VErr.danglingTarget m) = 0 := by
      by_cases hs : e.source_node ∈ N
      · rw [if_pos hs]
        rfl
      · rw [if_neg hs, List.count_singleton, if_neg (by simp)]
    rw [hsrc]
    by_cases htm : e.target_node = m
    · have htN : e.target_node ∉ N := by
        rw [htm]
        exact hm
      rw [if_neg htN, List.count_singleton, if_pos (by simp [htm])]
      simp [htm]
      omega
    · by_cases htN : e.target_node ∈ N
      · rw [if_pos htN]
        simp [htm]
      · rw [if_neg htN, List.count_singleton, if_neg (by simp [htm])]
        simp [htm]

theorem count_danglingErrs_source (N : List String) (E : List EdgeData) (m : String)
    (hm : m ∉ N) :
    (GraphValidator.danglingErrs N E).count (VErr.danglingSource m) =
      E.countP (fun e => decide (e.source_node = m)) := by
  induction E with
  | nil => rfl
  | cons e E ih =>
    rw [GraphValidator.danglingErrs, List.flatMap_cons, List.count_append,
      ← GraphValidator.danglingErrs, ih, List.count_append, List.countP_cons]
    have htgt : (if e.target_node ∈ N then ([] : List VErr)
        else [VErr.danglingTarget e.target_node]).count (VErr.danglingSource m) = 0 := by
      by_cases ht : e.target_node ∈ N
      · rw [if_pos ht]
        rfl
      · rw [if_neg ht, List.count_singleton, if_neg (by simp)]
    rw [htgt]
    by_cases hsm : e.source_node = m
    · have hsN : e.source_node ∉ N := by
        rw [hsm]
        exact hm
      rw [if_neg hsN, List.count_singleton, if_pos (by simp [hsm])]
      simp [hsm]
      omega
    · by_cases hsN : e.source_node ∈ N
      · rw [if_pos hsN]
        simp [hsm]
      · rw [if_neg hsN, List.count_singleton, if_neg (by simp [hsm])]
        simp [hsm]

theorem count_cycleComponent {V : Type} (g : GraphData V) (v : VErr) (hv : v ≠ VErr.cycles) :
    (match GraphValidator.topological_sort g with
      | Except.error e => [e]
      | Except.ok _ => ([] : List VErr)).count v = 0 := by
  have hts : GraphValidator.topological_sort g = Except.error VErr.cycles ∨
      GraphValidator.topological_sort g = Except.ok (topoSortKahn g) := by
    rw [GraphValidator.topological_sort]
    by_cases h : (topoSortKahn g).length ≠ g.nodeIds.length
    · left
      show (if (topoSortKahn g).length ≠ g.nodeIds.length then _ else _) = _
      rw [if_pos h]
    · right
      show (if (topoSortKahn g).length ≠ g.nodeIds.length then _ else _) = _
      rw [if_neg h]
  rcases hts with h | h
  · rw [h, List.count_singleton, if_neg (by simp [Ne.symm hv])]
  · rw [h]
    rfl

/-- C5: an edge whose target (resp. source) node is absent from the node set
yields a `danglingTarget` (resp. `danglingSource`) error naming that node in
the list returned by `validate` — which is a total function, modelling that
`validate` returns normally rather than raising — and dangling edges are
reported individually: the number of such errors for a missing node `m`
equals the number of edges referencing `m` in that position. -/
theorem c5_dangling_edges_reported {V : Type} (g : GraphData V) (e : EdgeData)
    (he : e ∈ g.edges) :
    (e.target_node ∉ g.nodeIds →
      VErr.danglingTarget e.target_node ∈ (GraphValidator.validate g).2 ∧
      (GraphValidator.validate g).2.count (VErr.danglingTarget e.target_node) =
        g.edges.countP (fun e2 => decide (e2.target_node = e.target_node))) ∧
    (e.source_node ∉ g.nodeIds →
      VErr.danglingSource e.source_node ∈ (GraphValidator.validate g).2 ∧
      (GraphValidator.validate g).2.count (VErr.danglingSource e.source_node) =
        g.edges.countP (fun e2 => decide (e2.source_node = e.source_node))) := by
  constructor
  · intro h
    refine ⟨mem_danglingErrs_target g e he h, ?_⟩
    rw [validate_snd, List.count_append, List.count_append,
      count_cycleComponent g _ (by simp),
      count_dupErrs_not_dup g.edges [] _ (by simp),
      count_danglingErrs_target g.nodeIds g.edges e.target_node h]
    omega
  · intro h
    refine ⟨mem_danglingErrs_source g e he h, ?_⟩
    rw [validate_snd, List.count_append, List.count_append,
      count_cycleComponent g _ (by simp),
      count_dupErrs_not_dup g.edges [] _ (by simp),
      count_danglingErrs_source g.nodeIds g.edges e.source_node h]
    omega

/-- Witness for C5 at the concrete graph A → ghost. -/
theorem c5_witness :
    ("ghost" ∉ gGhost.nodeIds) ∧
      (VErr.danglingTarget "ghost" ∈ (GraphValidator.validate gGhost).2 ∧
        (GraphValidator.validate gGhost).2.count (VErr.danglingTarget "ghost") =
          gGhost.edges.countP (fun e2 => decide (e2.target_node = "ghost"))) :=
  ⟨by decide,
    (c5_dangling_edges_reported gGhost (exEdge "A" "ghost") (by decide)).1 (by decide)⟩

/-! ### C4 and C10: cycles and dangling edges versus the length check -/

theorem cycle_pred {V : Type} (g : GraphData V) (c : List String) (hc : IsCycle g c) :
    ∀ t ∈ c, ∃ s ∈ c, ∃ e ∈ g.edges, e.source_node = s ∧ e.target_node = t := by
  intro t ht
  rcases List.mem_iff_get.mp ht with ⟨⟨j, hj⟩, rfl⟩
  have hlen : 0 < c.length := Nat.lt_of_le_of_lt (Nat.zero_le j) hj
  have hplt : (j + c.length - 1) % c.length < c.length := Nat.mod_lt _ hlen
  have hsucc : ((j + c.length - 1) % c.length + 1) % c.length = j := by
    rw [Nat.mod_add_mod]
    have h1 : j + c.length - 1 + 1 = j + c.length := by omega
    rw [h1, Nat.add_mod_right]
    exact Nat.mod_eq_of_lt hj
  have hedge := hc.2 ((j + c.length - 1) % c.length) hplt
  rw [hasEdgeB, List.any_eq_true] at hedge
  rcases hedge with ⟨e, he, hee⟩
  simp only [Bool.and_eq_true, decide_eq_true_eq] at hee
  refine ⟨c.get ⟨(j + c.length - 1) % c.length, hplt⟩, List.get_mem c _ hplt,
    e, he, hee.1, ?_⟩
  rw [hee.2]
  exact congrArg c.get (Fin.ext hsucc)

theorem cycle_not_mem_kahn {V : Type} (g : GraphData V) (c : List String)
    (hc : IsCycle g c) (hpost : KPost g.nodeIds g.edges (topoSortKahn g)) :
    ∀ t ∈ c, t ∉ topoSortKahn g := by
  have key : ∀ k t, t ∈ c → t ∈ topoSortKahn g → (topoSortKahn g).indexOf t = k → False := by
    intro k
    induction k using Nat.strong_induction_on with
    | _ k ih =>
      intro t htc htres hidx
      rcases cycle_pred g c hc t htc with ⟨s, hsc, e, he, hsrc, htgt⟩
      have h2 := hpost.topo e he (by rw [htgt]; exact htres)
      rw [hsrc, htgt] at h2
      exact ih ((topoSortKahn g).indexOf s) (by rw [← hidx]; exact h2.2) s hsc h2.1 rfl
  intro t htc htres
  exact key ((topoSortKahn g).indexOf t) t htc htres rfl

theorem validate_false_of_errs_ne_nil {V : Type} (g : GraphData V)
    (h : (GraphValidator.validate g).2 ≠ []) : (GraphValidator.validate g).1 = false := by
  rw [validate_fst]
  rcases hi : (GraphValidator.validate g).2.isEmpty with _ | _
  · rfl
  · exact absurd (List.isEmpty_iff.mp hi) h

/-- Counterexample to C4 as stated: `gC4cx` contains the cycle A → B → A, yet
`validate` reports only the two dangling targets — no error mentioning
cycles. -/
theorem c4_counterexample :
    IsCycle gC4cx ["A", "B"] ∧ VErr.cycles ∉ (GraphValidator.validate gC4cx).2 := by
  constructor
  · refine ⟨by simp, ?_⟩
    intro i h
    have h2 : i < 2 := by simpa using h
    interval_cases i <;> rfl
  · decide

/-- C4 amended: a graph containing a cycle always fails validation
(`is_valid = false`) and `get_execution_order` raises `GraphValidationError`
carrying the error list; the error list contains the cycle message whenever
the graph additionally has no dangling edges (with dangling edges present the
length check can be fooled, see `c4_counterexample`, but validation still
fails on the dangling reports). -/
theorem c4_cycle_fails_validation {V : Type} (g : GraphData V) (c : List String)
    (hN : g.nodeIds.Nodup) (hc : IsCycle g c) :
    (GraphValidator.validate g).1 = false ∧
      GraphExecutionPlanner.get_execution_order g =
        Except.error (GraphValidator.validate g).2 ∧
      ((∀ e ∈ g.edges, e.source_node ∈ g.nodeIds ∧ e.target_node ∈ g.nodeIds) →
        VErr.cycles ∈ (GraphValidator.validate g).2) := by
  have hpost := topoSortKahn_post g hN
  have hcyc : (∀ e ∈ g.edges, e.source_node ∈ g.nodeIds ∧ e.target_node ∈ g.nodeIds) →
      VErr.cycles ∈ (GraphValidator.validate g).2 := by
    intro hnod
    obtain ⟨t0, ht0⟩ : ∃ t, t ∈ c := by
      cases c with
      | nil => exact absurd rfl hc.1
      | cons a l => exact ⟨a, List.mem_cons_self _ _⟩
    have ht0N : t0 ∈ g.nodeIds := by
      rcases cycle_pred g c hc t0 ht0 with ⟨s, -, e, he, -, htgt⟩
      rw [← htgt]
      exact (hnod e he).2
    have ht0res : t0 ∉ topoSortKahn g := cycle_not_mem_kahn g c hc hpost t0 ht0
    have hsubN : topoSortKahn g ⊆ g.nodeIds := by
      intro x hx
      have hk := hpost.subk x hx
      rw [mem_keys0] at hk
      rcases hk with hk | hk
      · exact hk
      · rcases List.mem_map.mp hk with ⟨e, he, rfl⟩
        exact (hnod e he).2
    have hsub2 : topoSortKahn g ⊆ g.nodeIds.erase t0 := by
      intro x hx
      rw [List.Nodup.mem_erase_iff hN]
      exact ⟨fun hxeq => ht0res (hxeq ▸ hx), hsubN hx⟩
    have hlen2 : (topoSortKahn g).length ≤ g.nodeIds.length - 1 := by
      have hle := (hpost.nodup.subperm hsub2).length_le
      rw [List.length_erase_of_mem ht0N] at hle
      exact hle
    have hlenN : 0 < g.nodeIds.length := List.length_pos_of_mem ht0N
    apply cycles_mem_of_length_ne
    omega
  have hfalse : (GraphValidator.validate g).1 = false := by
    apply validate_false_of_errs_ne_nil
    by_cases hall : ∀ e ∈ g.edges, e.source_node ∈ g.nodeIds ∧ e.target_node ∈ g.nodeIds
    · exact List.ne_nil_of_mem (hcyc hall)
    · push_neg at hall
      rcases hall with ⟨e, he, hbad⟩
      by_cases hsrc : e.source_node ∈ g.nodeIds
      · have htgt : e.target_node ∉ g.nodeIds := fun h => hbad hsrc h
        exact List.ne_nil_of_mem (mem_danglingErrs_target g e he htgt)
      · exact List.ne_nil_of_mem (mem_danglingErrs_source g e he hsrc)
  exact ⟨hfalse, geo_eq_of_validate_false g hfalse, hcyc⟩

/-- Witness for the amended C4 at the concrete cycle A ↔ B. -/
theorem c4_witness :
    (GraphValidator.validate gCycAB).1 = false ∧
      GraphExecutionPlanner.get_execution_order gCycAB =
        Except.error (GraphValidator.validate gCycAB).2 ∧
      VErr.cycles ∈ (GraphValidator.validate gCycAB).2 := by
  have hcyc : IsCycle gCycAB ["A", "B"] := by
    refine ⟨by simp, ?_⟩
    intro i h
    have h2 : i < 2 := by simpa using h
    interval_cases i <;> rfl
  have h := c4_cycle_fails_validation gCycAB ["A", "B"] (by decide) hcyc
  exact ⟨h.1, h.2.1, h.2.2 (by decide)⟩

/-- C10 amended: for an acyclic graph with dangling edges, the spurious
"Graph contains cycles" error is guaranteed when the dangling references are
all missing targets (every source exists) or all missing sources (every
target exists); with both kinds present the two length distortions can cancel
(see `c10_counterexample`). -/
theorem c10_dangling_triggers_cycle_error {V : Type} (g : GraphData V)
    (hN : g.nodeIds.Nodup) (hacyc : RankedAcyclic g)
    (hcase :
      ((∀ e ∈ g.edges, e.source_node ∈ g.nodeIds) ∧
        (∃ e ∈ g.edges, e.target_node ∉ g.nodeIds)) ∨
      ((∀ e ∈ g.edges, e.target_node ∈ g.nodeIds) ∧
        (∃ e ∈ g.edges, e.source_node ∉ g.nodeIds))) :
    VErr.cycles ∈ (GraphValidator.validate g).2 := by
  have hpost := topoSortKahn_post g hN
  rcases hcase with ⟨hsrc, e0, he0, htgt0⟩ | ⟨htgt, e0, he0, hsrc0⟩
  · rcases hacyc with ⟨rank, hrank⟩
    have hcompl : ∀ u ∈ keys0 g.nodeIds g.edges, u ∈ topoSortKahn g := by
      have key : ∀ k u, u ∈ keys0 g.nodeIds g.edges → u ∉ topoSortKahn g →
          rank u = k → False := by
        intro k
        induction k using Nat.strong_induction_on with
        | _ k ih =>
          intro u hu hur hrk
          have hstuck := hpost.stuck u hu hur
          have hex : ∃ e ∈ g.edges, e.target_node = u ∧
              e.source_node ∉ topoSortKahn g := by
            by_contra hno
            push_neg at hno
            apply hstuck
            apply (countOut_eq_zero_iff _ _ _).mpr
            intro e he htgt2
            by_contra hmem
            exact hmem (hno e he htgt2)
          rcases hex with ⟨e, he, htgtu, hsrcnot⟩
          have hsK : e.source_node ∈ keys0 g.nodeIds g.edges :=
            (mem_keys0 _ _ _).mpr (Or.inl (hsrc e he))
          have hlt : rank e.source_node < k := by
            rw [← hrk, ← htgtu]
            exact hrank e he
          exact ih _ hlt _ hsK hsrcnot rfl
      intro u hu
      by_contra hur
      exact key (rank u) u hu hur rfl
    have hknd : (keys0 g.nodeIds g.edges).Nodup := keysA_nodup_buildIndeg _ _ hN
    have h1 : (topoSortKahn g).length = (keys0 g.nodeIds g.edges).length := by
      have ha := (hpost.nodup.subperm (fun x hx => hpost.subk x hx)).length_le
      have hb := (hknd.subperm (fun u hu => hcompl u hu)).length_le
      omega
    have hg : e0.target_node ∈ keys0 g.nodeIds g.edges :=
      (mem_keys0 _ _ _).mpr (Or.inr (List.mem_map.mpr ⟨e0, he0, rfl⟩))
    have h2 : g.nodeIds.length + 1 ≤ (keys0 g.nodeIds g.edges).length := by
      have hnodup2 : (g.nodeIds ++ [e0.target_node]).Nodup := by
        apply List.Nodup.append hN (List.nodup_singleton _)
        intro a ha hb
        rw [List.mem_singleton] at hb
        subst hb
        exact htgt0 ha
      have hsub3 : g.nodeIds ++ [e0.target_node] ⊆ keys0 g.nodeIds g.edges := by
        intro x hx
        rcases List.mem_append.mp hx with hx | hx
        · exact (mem_keys0 _ _ _).mpr (Or.inl hx)
        · rw [List.mem_singleton] at hx
          subst hx
          exact hg
      have hle := (hnodup2.subperm hsub3).length_le
      simpa using hle
    apply cycles_mem_of_length_ne
    omega
  · have htgtK : ∀ x ∈ topoSortKahn g, x ∈ g.nodeIds := by
      intro x hx
      have hk := hpost.subk x hx
      rw [mem_keys0] at hk
      rcases hk with hk | hk
      · exact hk
      · rcases List.mem_map.mp hk with ⟨e, he, rfl⟩
        exact htgt e he
    have ht0res : e0.target_node ∉ topoSortKahn g := by
      intro hmem
      have h2 := hpost.topo e0 he0 hmem
      exact hsrc0 (htgtK _ h2.1)
    have ht0N : e0.target_node ∈ g.nodeIds := htgt e0 he0
    have hsub2 : topoSortKahn g ⊆ g.nodeIds.erase e0.target_node := by
      intro x hx
      rw [List.Nodup.mem_erase_iff hN]
      exact ⟨fun hxeq => ht0res (hxeq ▸ hx), htgtK x hx⟩
    have hlen2 : (topoSortKahn g).length ≤ g.nodeIds.length - 1 := by
      have hle := (hpost.nodup.subperm hsub2).length_le
      rw [List.length_erase_of_mem ht0N] at hle
      exact hle
    have hlenN : 0 < g.nodeIds.length := List.length_pos_of_mem ht0N
    apply cycles_mem_of_length_ne
    omega

/-- Counterexample to C10 as stated: `gC10cx` is acyclic and has dangling
edges, yet `validate` reports no cycle error. -/
theorem c10_counterexample :
    RankedAcyclic gC10cx ∧
      (∃ e ∈ gC10cx.edges, e.target_node ∉ gC10cx.nodeIds) ∧
      VErr.cycles ∉ (GraphValidator.validate gC10cx).2 := by
  refine ⟨⟨fun s => if s = "A" ∨ s = "ghost" then 1 else 0, ?_⟩, ?_, ?_⟩
  · decide
  · decide
  · decide

/-- Witness for the amended C10 at the concrete graph A → ghost (acyclic, all
sources exist, a target missing). -/
theorem c10_witness : VErr.cycles ∈ (GraphValidator.validate gGhost).2 :=
  c10_dangling_triggers_cycle_error gGhost (by decide)
    ⟨fun s => if s = "ghost" then 1 else 0, by decide⟩
    (Or.inl ⟨by decide, exEdge "A" "ghost", by decide, by decide⟩)

/-! ### C6 -/

theorem batchesLoop_deps {V : Type} (g : GraphData V)
    (deps : List (String × List String)) :
    ∀ (fuel : Nat) (processed : List String) (bs : List (List String)),
      GraphExecutionPlanner.batchesLoop g deps fuel processed = Except.ok bs →
      ∀ i (h : i < bs.length), ∀ n ∈ bs.get ⟨i, h⟩,
        ∀ d ∈ GraphExecutionPlanner.depsOf deps n,
          d ∈ processed ∨ d ∈ (bs.take i).flatten := by
  intro fuel
  induction fuel with
  | zero =>
    intro processed bs h
    exact absurd h (by simp [GraphExecutionPlanner.batchesLoop])
  | succ fuel ih =>
    intro processed bs h
    rw [GraphExecutionPlanner.batchesLoop] at h
    by_cases hcond : processed.length < g.nodeIds.length
    · rw [if_pos hcond] at h
      by_cases hemp : (g.nodeIds.filter
          (fun n => decide (n ∉ processed ∧
            ∀ d ∈ GraphExecutionPlanner.depsOf deps n, d ∈ processed))).isEmpty
      · rw [if_pos hemp] at h
        exact absurd h (by simp)
      · rw [if_neg hemp] at h
        rcases hrec : GraphExecutionPlanner.batchesLoop g deps fuel
            (processed ++ g.nodeIds.filter
              (fun n => decide (n ∉ processed ∧
                ∀ d ∈ GraphExecutionPlanner.depsOf deps n, d ∈ processed))) with e | rest
        · rw [hrec] at h
          exact absurd h (by simp)
        · rw [hrec] at h
          simp only [Except.ok.injEq] at h
          subst h
          intro i hi n hn d hd
          match i with
          | 0 =>
            left
            simp only [List.get] at hn
            have hp := (List.mem_filter.mp hn).2
            have hp2 := of_decide_eq_true hp
            exact hp2.2 d hd
          | j + 1 =>
            simp only [List.get] at hn
            have hlt : j < rest.length := by
              simpa using hi
            have h2 := ih _ rest hrec j hlt n hn d hd
            rcases h2 with h2 | h2
            · rcases List.mem_append.mp h2 with h3 | h3
              · exact Or.inl h3
              · right
                simp only [List.take_succ_cons, List.flatten_cons]
                exact List.mem_append_left _ h3
            · right
              simp only [List.take_succ_cons, List.flatten_cons]
              exact List.mem_append_right _ h2
    · rw [if_neg hcond] at h
      simp only [Except.ok.injEq] at h
      subst h
      intro i hi
      simp at hi

/-- C6: on the diamond graph `get_parallel_batches` returns exactly the three
batches [A], [B, C], [D] in that order; and in general, whenever
`get_parallel_batches` succeeds, every dependency (edge source) of a node
placed in batch `i` lies in one of the batches before `i`. -/
theorem c6_parallel_batches_diamond :
    (GraphExecutionPlanner.get_parallel_batches gDiamond =
        Except.ok [["A"], ["B", "C"], ["D"]]) ∧
      ∀ (V : Type) (g : GraphData V) (bs : List (List String)),
        GraphExecutionPlanner.get_parallel_batches g = Except.ok bs →
        ∀ i (h : i < bs.length), ∀ n ∈ bs.get ⟨i, h⟩,
          ∀ d ∈ GraphExecutionPlanner.depsOf
              (GraphExecutionPlanner.build_dependency_graph g.edges) n,
            d ∈ (bs.take i).flatten := by
  constructor
  · rfl
  · intro V g bs h i hi n hn d hd
    rw [GraphExecutionPlanner.get_parallel_batches] at h
    have h2 := batchesLoop_deps g _ _ _ bs h i hi n hn d hd
    rcases h2 with h2 | h2
    · simp at h2
    · exact h2

/-- Witness for the general clause of C6: node D of the diamond sits in batch
2 and both its dependencies lie in the earlier batches. -/
theorem c6_witness :
    ∀ d ∈ GraphExecutionPlanner.depsOf
        (GraphExecutionPlanner.build_dependency_graph gDiamond.edges) "D",
      d ∈ ([["A"], ["B", "C"], ["D"]].take 2).flatten :=
  c6_parallel_batches_diamond.2 String gDiamond [["A"], ["B", "C"], ["D"]]
    c6_parallel_batches_diamond.1 2 (by decide) "D" (by decide)

/-! ### C8 -/

/-- C8: `get_input_value` takes the FIRST edge (in edge-list order) whose
target is `(node_id, port_name)` and returns the recorded output of that
edge's source node at the edge's source port; it returns null when no such
edge exists (the `find?` is `none`) or when the source node has no recorded
output at that port (the inner `getA` is `none`) — the scan stops at the
first match even then. -/
theorem c8_get_input_value_first_edge {V : Type} (ctx : ExecutionContext V)
    (node_id port_name : String) :
    ExecutionContext.get_input_value ctx node_id port_name =
      match ctx.graph.edges.find?
          (fun e => decide (e.target_node = node_id ∧ e.target_port = port_name)) with
      | none => none
      | some e => getA e.source_port ((getA e.source_node ctx.node_outputs).getD []) := by
  rw [ExecutionContext.get_input_value]
  induction ctx.graph.edges with
  | nil => rfl
  | cons e E ih =>
    rw [ExecutionContext.getInputGo]
    by_cases hc : e.target_node = node_id ∧ e.target_port = port_name
    · rw [if_pos hc, List.find?_cons_of_pos _ (by simp [hc])]
    · rw [if_neg hc, ih, List.find?_cons_of_neg _ (by simp [hc])]

/-! ### C9: `execute_parallel_batches` drops the supplied inputs -/

theorem foldl_set_node_output_inputs {V : Type} (outs : List (String × V))
    (ctx : ExecutionContext V) (n : String) :
    (outs.foldl (fun c pv => ExecutionContext.set_node_output c n pv.1 pv.2)
        ctx).execution_inputs = ctx.execution_inputs := by
  induction outs generalizing ctx with
  | nil => rfl
  | cons o os ih =>
    rw [List.foldl_cons, ih]
    rfl

theorem executeNode_eq_keyError {V : Type} {reg : String → Option (NodeImpl V)}
    {ctx : ExecutionContext V} {node_id : String}
    (hnd : getA node_id ctx.graph.nodes = none) :
    GraphExecutor.executeNode reg ctx node_id =
      (ctx, some (GraphExecutor.NodeAbort.keyError node_id)) := by
  rw [GraphExecutor.executeNode, hnd]

theorem executeNode_eq_unknown {V : Type} {reg : String → Option (NodeImpl V)}
    {ctx : ExecutionContext V} {node_id : String} {nd : NodeData V}
    (hnd : getA node_id ctx.graph.nodes = some nd)
    (hreg : reg nd.node_type = none) :
    GraphExecutor.executeNode reg ctx node_id =
      GraphExecutor.failNode (ExecutionContext.set_node_status ctx node_id NodeStatus.running)
        node_id (PyErr.unknownNodeType nd.node_type) := by
  rw [GraphExecutor.executeNode, hnd]
  dsimp only
  rw [hreg]

theorem executeNode_eq_invalid {V : Type} {reg : String → Option (NodeImpl V)}
    {ctx : ExecutionContext V} {node_id : String} {nd : NodeData V} {impl : NodeImpl V}
    (hnd : getA node_id ctx.graph.nodes = some nd)
    (hreg : reg nd.node_type = some impl)
    (hv : validate_inputs impl.spec
      (GraphExecutor.collectInputs
        (ExecutionContext.set_node_status ctx node_id NodeStatus.running)
        node_id impl.spec.inputs) = false) :
    GraphExecutor.executeNode reg ctx node_id =
      GraphExecutor.failNode (ExecutionContext.set_node_status ctx node_id NodeStatus.running)
        node_id (PyErr.invalidInputs node_id
          (GraphExecutor.missingRequired impl.spec
            (GraphExecutor.collectInputs
              (ExecutionContext.set_node_status ctx node_id NodeStatus.running)
              node_id impl.spec.inputs))) := by
  rw [GraphExecutor.executeNode, hnd]
  dsimp only
  rw [hreg]
  dsimp only
  rw [hv]
  rfl

theorem executeNode_eq_raised {V : Type} {reg : String → Option (NodeImpl V)}
    {ctx : ExecutionContext V} {node_id : String} {nd : NodeData V} {impl : NodeImpl V}
    {msg : String}
    (hnd : getA node_id ctx.graph.nodes = some nd)
    (hreg : reg nd.node_type = some impl)
    (hv : validate_inputs impl.spec
      (GraphExecutor.collectInputs
        (ExecutionContext.set_node_status ctx node_id NodeStatus.running)
        node_id impl.spec.inputs) = true)
    (hex : impl.execute (ExecutionContext.set_node_status ctx node_id NodeStatus.running) nd =
      Except.error msg) :
    GraphExecutor.executeNode reg ctx node_id =
      GraphExecutor.failNode (ExecutionContext.set_node_status ctx node_id NodeStatus.running)
        node_id (PyErr.raised msg) := by
  rw [GraphExecutor.executeNode, hnd]
  dsimp only
  rw [hreg]
  dsimp only
  rw [hv, if_pos rfl]
  rw [hex]

theorem executeNode_eq_ok {V : Type} {reg : String → Option (NodeImpl V)}
    {ctx : ExecutionContext V} {node_id : String} {nd : NodeData V} {impl : NodeImpl V}
    {outs : List (String × V)}
    (hnd : getA node_id ctx.graph.nodes = some nd)
    (hreg : reg nd.node_type = some impl)
    (hv : validate_inputs impl.spec
      (GraphExecutor.collectInputs
        (ExecutionContext.set_node_status ctx node_id NodeStatus.running)
        node_id impl.spec.inputs) = true)
    (hex : impl.execute (ExecutionContext.set_node_status ctx node_id NodeStatus.running) nd =
      Except.ok outs) :
    GraphExecutor.executeNode reg ctx node_id =
      (ExecutionContext.set_node_status
        (outs.foldl (fun c pv => ExecutionContext.set_node_output c node_id pv.1 pv.2)
          (ExecutionContext.set_node_status ctx node_id NodeStatus.running))
        node_id NodeStatus.completed, none) := by
  rw [GraphExecutor.executeNode, hnd]
  dsimp only
  rw [hreg]
  dsimp only
  rw [hv, if_pos rfl]
  rw [hex]

theorem executeNode_inputs {V : Type} (reg : String → Option (NodeImpl V))
    (ctx : ExecutionContext V) (n : String) :
    ((GraphExecutor.executeNode reg ctx n).1).execution_inputs =
      ctx.execution_inputs := by
  cases hnd : getA n ctx.graph.nodes with
  | none => rw [executeNode_eq_keyError hnd]
  | some nd =>
    cases hreg : reg nd.node_type with
    | none => rw [executeNode_eq_unknown hnd hreg]; rfl
    | some impl =>
      cases hv : validate_inputs impl.spec
          (GraphExecutor.collectInputs
            (ExecutionContext.set_node_status ctx n NodeStatus.running) n impl.spec.inputs) with
      | false => rw [executeNode_eq_invalid hnd hreg hv]; rfl
      | true =>
        cases hex : impl.execute
            (ExecutionContext.set_node_status ctx n NodeStatus.running) nd with
        | error msg => rw [executeNode_eq_raised hnd hreg hv hex]; rfl
        | ok outs =>
          rw [executeNode_eq_ok hnd hreg hv hex]
          simp only
          rw [show (ExecutionContext.set_node_status
              (outs.foldl (fun c pv => ExecutionContext.set_node_output c n pv.1 pv.2)
                (ExecutionContext.set_node_status ctx n NodeStatus.running))
              n NodeStatus.completed).execution_inputs =
            (outs.foldl (fun c pv => ExecutionContext.set_node_output c n pv.1 pv.2)
                (ExecutionContext.set_node_status ctx n NodeStatus.running)).execution_inputs
            from rfl]
          rw [foldl_set_node_output_inputs]
          rfl

theorem runOrder_inputs {V : Type} (reg : String → Option (NodeImpl V)) :
    ∀ (l : List String) (ctx : ExecutionContext V),
      ((GraphExecutor.runOrder reg l ctx).1).execution_inputs =
        ctx.execution_inputs := by
  intro l
  induction l with
  | nil => intro ctx; rfl
  | cons n rest ih =>
    intro ctx
    rw [GraphExecutor.runOrder]
    have h2 := executeNode_inputs reg ctx n
    rcases hx : GraphExecutor.executeNode reg ctx n with ⟨ctx2, ab⟩
    rw [hx] at h2
    cases ab with
    | none =>
      simp only
      rw [ih ctx2]
      exact h2
    | some a => exact h2

theorem foldl_set_node_status_inputs {V : Type} (l : List String)
    (ctx : ExecutionContext V) (st : NodeStatus) :
    ((l.foldl (fun c n => ExecutionContext.set_node_status c n st)
        ctx)).execution_inputs = ctx.execution_inputs := by
  induction l generalizing ctx with
  | nil => rfl
  | cons n rest ih =>
    rw [List.foldl_cons, ih]
    rfl

theorem pendingInit_inputs {V : Type} (ctx : ExecutionContext V) :
    (GraphExecutor.pendingInit ctx).execution_inputs = ctx.execution_inputs :=
  foldl_set_node_status_inputs _ ctx _

theorem sNode_eq_keyError {V : Type} {reg : String → Option (NodeImpl V)}
    {ctx : ExecutionContext V} {node_id : String}
    (hnd : getA node_id ctx.graph.nodes = none) :
    GraphExecutor.executeNodeStreaming reg ctx node_id =
      ([], ctx, some (GraphExecutor.NodeAbort.keyError node_id)) := by
  rw [GraphExecutor.executeNodeStreaming, hnd]

theorem sNode_eq_unknown {V : Type} {reg : String → Option (NodeImpl V)}
    {ctx : ExecutionContext V} {node_id : String} {nd : NodeData V}
    (hnd : getA node_id ctx.graph.nodes = some nd)
    (hreg : reg nd.node_type = none) :
    GraphExecutor.executeNodeStreaming reg ctx node_id =
      ([], GraphExecutor.failNode
        (ExecutionContext.set_node_status ctx node_id NodeStatus.running)
        node_id (PyErr.unknownNodeType nd.node_type)) := by
  rw [GraphExecutor.executeNodeStreaming, hnd]
  dsimp only
  rw [hreg]

theorem sNode_eq_invalid {V : Type} {reg : String → Option (NodeImpl V)}
    {ctx : ExecutionContext V} {node_id : String} {nd : NodeData V} {impl : NodeImpl V}
    (hnd : getA node_id ctx.graph.nodes = some nd)
    (hreg : reg nd.node_type = some impl)
    (hv : validate_inputs impl.spec
      (GraphExecutor.collectInputs
        (ExecutionContext.set_node_status ctx node_id NodeStatus.running)
        node_id impl.spec.inputs) = false) :
    GraphExecutor.executeNodeStreaming reg ctx node_id =
      ([], GraphExecutor.failNode
        (ExecutionContext.set_node_status ctx node_id NodeStatus.running)
        node_id (PyErr.invalidInputs node_id
          (GraphExecutor.missingRequired impl.spec
            (GraphExecutor.collectInputs
              (ExecutionContext.set_node_status ctx node_id NodeStatus.running)
              node_id impl.spec.inputs)))) := by
  rw [GraphExecutor.executeNodeStreaming, hnd]
  dsimp only
  rw [hreg]
  dsimp only
  rw [hv]
  rfl

theorem sNode_eq_stream_raised {V : Type} {reg : String → Option (NodeImpl V)}
    {ctx : ExecutionContext V} {node_id : String} {nd : NodeData V} {impl : NodeImpl V}
    {es : ExecutionContext V → NodeData V → List V × Option String}
    {chunks : List V} {msg : String}
    (hnd : getA node_id ctx.graph.nodes = some nd)
    (hreg : reg nd.node_type = some impl)
    (hv : validate_inputs impl.spec
      (GraphExecutor.collectInputs
        (ExecutionContext.set_node_status ctx node_id NodeStatus.running)
        node_id impl.spec.inputs) = true)
    (hes : impl.execute_streaming = some es)
    (hrun : es (ExecutionContext.set_node_status ctx node_id NodeStatus.running) nd =
      (chunks, some msg)) :
    GraphExecutor.executeNodeStreaming reg ctx node_id =
      (chunks, GraphExecutor.failNode
        (ExecutionContext.set_node_status ctx node_id NodeStatus.running)
        node_id (PyErr.raised msg)) := by
  rw [GraphExecutor.executeNodeStreaming, hnd]
  dsimp only
  rw [hreg]
  dsimp only
  rw [hv, if_pos rfl, hes]
  dsimp only
  rw [hrun]

theorem sNode_eq_stream_execError {V : Type} {reg : String → Option (NodeImpl V)}
    {ctx : ExecutionContext V} {node_id : String} {nd : NodeData V} {impl : NodeImpl V}
    {es : ExecutionContext V → NodeData V → List V × Option String}
    {chunks : List V} {msg : String}
    (hnd : getA node_id ctx.graph.nodes = some nd)
    (hreg : reg nd.node_type = some impl)
    (hv : validate_inputs impl.spec
      (GraphExecutor.collectInputs
        (ExecutionContext.set_node_status ctx node_id NodeStatus.running)
        node_id impl.spec.inputs) = true)
    (hes : impl.execute_streaming = some es)
    (hrun : es (ExecutionContext.set_node_status ctx node_id NodeStatus.running) nd =
      (chunks, none))
    (hex : impl.execute (ExecutionContext.set_node_status ctx node_id NodeStatus.running) nd =
      Except.error msg) :
    GraphExecutor.executeNodeStreaming reg ctx node_id =
      (chunks, GraphExecutor.failNode
        (ExecutionContext.set_node_status ctx node_id NodeStatus.running)
        node_id (PyErr.raised msg)) := by
  rw [GraphExecutor.executeNodeStreaming, hnd]
  dsimp only
  rw [hreg]
  dsimp only
  rw [hv, if_pos rfl, hes]
  dsimp only
  rw [hrun]
  dsimp only
  rw [hex]

theorem sNode_eq_stream_ok {V : Type} {reg : String → Option (NodeImpl V)}
    {ctx : ExecutionContext V} {node_id : String} {nd : NodeData V} {impl : NodeImpl V}
    {es : ExecutionContext V → NodeData V → List V × Option String}
    {chunks : List V} {outs : List (String × V)}
    (hnd : getA node_id ctx.graph.nodes = some nd)
    (hreg : reg nd.node_type = some impl)
    (hv : validate_inputs impl.spec
      (GraphExecutor.collectInputs
        (ExecutionContext.set_node_status ctx node_id NodeStatus.running)
        node_id impl.spec.inputs) = true)
    (hes : impl.execute_streaming = some es)
    (hrun : es (ExecutionContext.set_node_status ctx node_id NodeStatus.running) nd =
      (chunks, none))
    (hex : impl.execute (ExecutionContext.set_node_status ctx node_id NodeStatus.running) nd =
      Except.ok outs) :
    GraphExecutor.executeNodeStreaming reg ctx node_id =
      (chunks, ExecutionContext.set_node_status
        (outs.foldl (fun c pv => ExecutionContext.set_node_output c node_id pv.1 pv.2)
          (ExecutionContext.set_node_status ctx node_id NodeStatus.running))
        node_id NodeStatus.completed, none) := by
  rw [GraphExecutor.executeNodeStreaming, hnd]
  dsimp only
  rw [hreg]
  dsimp only
  rw [hv, if_pos rfl, hes]
  dsimp only
  rw [hrun]
  dsimp only
  rw [hex]

theorem sNode_eq_plain_execError {V : Type} {reg : String → Option (NodeImpl V)}
    {ctx : ExecutionContext V} {node_id : String} {nd : NodeData V} {impl : NodeImpl V}
    {msg : String}
    (hnd : getA node_id ctx.graph.nodes = some nd)
    (hreg : reg nd.node_type = some impl)
    (hv : validate_inputs impl.spec
      (GraphExecutor.collectInputs
        (ExecutionContext.set_node_status ctx node_id NodeStatus.running)
        node_id impl.spec.inputs) = true)
    (hes : impl.execute_streaming = none)
    (hex : impl.execute (ExecutionContext.set_node_status ctx node_id NodeStatus.running) nd =
      Except.error msg) :
    GraphExecutor.executeNodeStreaming reg ctx node_id =
      ([], GraphExecutor.failNode
        (ExecutionContext.set_node_status ctx node_id NodeStatus.running)
        node_id (PyErr.raised msg)) := by
  rw [GraphExecutor.executeNodeStreaming, hnd]
  dsimp only
  rw [hreg]
  dsimp only
  rw [hv, if_pos rfl, hes]
  dsimp only
  rw [hex]

theorem sNode_eq_plain_ok {V : Type} {reg : String → Option (NodeImpl V)}
    {ctx : ExecutionContext V} {node_id : String} {nd : NodeData V} {impl : NodeImpl V}
    {outs : List (String × V)}
    (hnd : getA node_id ctx.graph.nodes = some nd)
    (hreg : reg nd.node_type = some impl)
    (hv : validate_inputs impl.spec
      (GraphExecutor.collectInputs
        (ExecutionContext.set_node_status ctx node_id NodeStatus.running)
        node_id impl.spec.inputs) = true)
    (hes : impl.execute_streaming = none)
    (hex : impl.execute (ExecutionContext.set_node_status ctx node_id NodeStatus.running) nd =
      Except.ok outs) :
    GraphExecutor.executeNodeStreaming reg ctx node_id =
      ((match getA "response" outs with
        | some v => [v]
        | none => []),
       ExecutionContext.set_node_status
        (outs.foldl (fun c pv => ExecutionContext.set_node_output c node_id pv.1 pv.2)
          (ExecutionContext.set_node_status ctx node_id NodeStatus.running))
        node_id NodeStatus.completed, none) := by
  rw [GraphExecutor.executeNodeStreaming, hnd]
  dsimp only
  rw [hreg]
  dsimp only
  rw [hv, if_pos rfl, hes]
  dsimp only
  rw [hex]

theorem executeNodeStreaming_inputs {V : Type} (reg : String → Option (NodeImpl V))
    (ctx : ExecutionContext V) (n : String) :
    ((GraphExecutor.executeNodeStreaming reg ctx n).2.1).execution_inputs =
      ctx.execution_inputs := by
  cases hnd : getA n ctx.graph.nodes with
  | none => rw [sNode_eq_keyError hnd]
  | some nd =>
    cases hreg : reg nd.node_type with
    | none => rw [sNode_eq_unknown hnd hreg]; rfl
    | some impl =>
      cases hv : validate_inputs impl.spec
          (GraphExecutor.collectInputs
            (ExecutionContext.set_node_status ctx n NodeStatus.running) n impl.spec.inputs) with
      | false => rw [sNode_eq_invalid hnd hreg hv]; rfl
      | true =>
        cases hes : impl.execute_streaming with
        | none =>
          cases hex : impl.execute
              (ExecutionContext.set_node_status ctx n NodeStatus.running) nd with
          | error msg => rw [sNode_eq_plain_execError hnd hreg hv hes hex]; rfl
          | ok outs =>
            rw [sNode_eq_plain_ok hnd hreg hv hes hex]
            show (ExecutionContext.set_node_status _ n NodeStatus.completed).execution_inputs = _
            show (outs.foldl (fun c pv => ExecutionContext.set_node_output c n pv.1 pv.2)
              (ExecutionContext.set_node_status ctx n NodeStatus.running)).execution_inputs = _
            rw [foldl_set_node_output_inputs]
            rfl
        | some es =>
          rcases hrun : es (ExecutionContext.set_node_status ctx n NodeStatus.running) nd
            with ⟨chunks, exc⟩
          cases exc with
          | some msg => rw [sNode_eq_stream_raised hnd hreg hv hes hrun]; rfl
          | none =>
            cases hex : impl.execute
                (ExecutionContext.set_node_status ctx n NodeStatus.running) nd with
            | error msg => rw [sNode_eq_stream_execError hnd hreg hv hes hrun hex]; rfl
            | ok outs =>
              rw [sNode_eq_stream_ok hnd hreg hv hes hrun hex]
              show (ExecutionContext.set_node_status _ n NodeStatus.completed).execution_inputs = _
              show (outs.foldl (fun c pv => ExecutionContext.set_node_output c n pv.1 pv.2)
                (ExecutionContext.set_node_status ctx n NodeStatus.running)).execution_inputs = _
              rw [foldl_set_node_output_inputs]
              rfl

theorem streamOrder_eq_nil {V : Type} (reg : String → Option (NodeImpl V))
    (truthy : V → Bool) (ctx : ExecutionContext V) :
    GraphExecutor.streamOrder reg truthy [] ctx = ([], ctx, none) := rfl

theorem streamOrder_eq_keyError {V : Type} {reg : String → Option (NodeImpl V)}
    {truthy : V → Bool} {ctx : ExecutionContext V} {n : String} {rest : List String}
    (hnd : getA n ctx.graph.nodes = none) :
    GraphExecutor.streamOrder reg truthy (n :: rest) ctx =
      ([], ctx, some (GraphExecutor.NodeAbort.keyError n)) := by
  rw [GraphExecutor.streamOrder, hnd]

theorem streamOrder_eq_stream_abort {V : Type} {reg : String → Option (NodeImpl V)}
    {truthy : V → Bool} {ctx ctx2 : ExecutionContext V} {n : String} {rest : List String}
    {nd : NodeData V} {chunks : List V} {a : GraphExecutor.NodeAbort}
    (hnd : getA n ctx.graph.nodes = some nd)
    (hs : GraphExecutor.node_supports_streaming truthy nd = true)
    (hx : GraphExecutor.executeNodeStreaming reg ctx n = (chunks, ctx2, some a)) :
    GraphExecutor.streamOrder reg truthy (n :: rest) ctx =
      (chunks.map (fun c => GraphExecutor.Event.node_chunk n c ()), ctx2, some a) := by
  rw [GraphExecutor.streamOrder, hnd]
  dsimp only
  rw [hs, if_pos rfl, hx]

theorem streamOrder_eq_stream_ok {V : Type} {reg : String → Option (NodeImpl V)}
    {truthy : V → Bool} {ctx ctx2 : ExecutionContext V} {n : String} {rest : List String}
    {nd : NodeData V} {chunks : List V}
    (hnd : getA n ctx.graph.nodes = some nd)
    (hs : GraphExecutor.node_supports_streaming truthy nd = true)
    (hx : GraphExecutor.executeNodeStreaming reg ctx n = (chunks, ctx2, none)) :
    GraphExecutor.streamOrder reg truthy (n :: rest) ctx =
      (chunks.map (fun c => GraphExecutor.Event.node_chunk n c ()) ++
        [GraphExecutor.Event.node_complete n
          ((getA n ctx2.node_status).getD NodeStatus.pending)
          ((getA n ctx2.node_outputs).getD []) ()] ++
        (GraphExecutor.streamOrder reg truthy rest ctx2).1,
       (GraphExecutor.streamOrder reg truthy rest ctx2).2.1,
       (GraphExecutor.streamOrder reg truthy rest ctx2).2.2) := by
  rw [GraphExecutor.streamOrder, hnd]
  dsimp only
  rw [hs, if_pos rfl, hx]

theorem streamOrder_eq_plain_abort {V : Type} {reg : String → Option (NodeImpl V)}
    {truthy : V → Bool} {ctx ctx2 : ExecutionContext V} {n : String} {rest : List String}
    {nd : NodeData V} {a : GraphExecutor.NodeAbort}
    (hnd : getA n ctx.graph.nodes = some nd)
    (hs : GraphExecutor.node_supports_streaming truthy nd = false)
    (hx : GraphExecutor.executeNode reg ctx n = (ctx2, some a)) :
    GraphExecutor.streamOrder reg truthy (n :: rest) ctx = ([], ctx2, some a) := by
  rw [GraphExecutor.streamOrder, hnd]
  dsimp only
  rw [hs, if_neg (by simp), hx]

theorem streamOrder_eq_plain_ok {V : Type} {reg : String → Option (NodeImpl V)}
    {truthy : V → Bool} {ctx ctx2 : ExecutionContext V} {n : String} {rest : List String}
    {nd : NodeData V}
    (hnd : getA n ctx.graph.nodes = some nd)
    (hs : GraphExecutor.node_supports_streaming truthy nd = false)
    (hx : GraphExecutor.executeNode reg ctx n = (ctx2, none)) :
    GraphExecutor.streamOrder reg truthy (n :: rest) ctx =
      ([] ++
        [GraphExecutor.Event.node_complete n
          ((getA n ctx2.node_status).getD NodeStatus.pending)
          ((getA n ctx2.node_outputs).getD []) ()] ++
        (GraphExecutor.streamOrder reg truthy rest ctx2).1,
       (GraphExecutor.streamOrder reg truthy rest ctx2).2.1,
       (GraphExecutor.streamOrder reg truthy rest ctx2).2.2) := by
  rw [GraphExecutor.streamOrder, hnd]
  dsimp only
  rw [hs, if_neg (by simp), hx]

theorem streamOrder_inputs {V : Type} (reg : String → Option (NodeImpl V))
    (truthy : V → Bool) :
    ∀ (l : List String) (ctx : ExecutionContext V),
      ((GraphExecutor.streamOrder reg truthy l ctx).2.1).execution_inputs =
        ctx.execution_inputs := by
  intro l
  induction l with
  | nil => intro ctx; rfl
  | cons n rest ih =>
    intro ctx
    cases hnd : getA n ctx.graph.nodes with
    | none => rw [streamOrder_eq_keyError hnd]
    | some nd =>
      cases hs : GraphExecutor.node_supports_streaming truthy nd with
      | true =>
        have h2 := executeNodeStreaming_inputs reg ctx n
        rcases hx : GraphExecutor.executeNodeStreaming reg ctx n with ⟨chunks, ctx2, ab⟩
        rw [hx] at h2
        cases ab with
        | none =>
          rw [streamOrder_eq_stream_ok hnd hs hx]
          dsimp only
          rw [ih ctx2]
          exact h2
        | some a =>
          rw [streamOrder_eq_stream_abort hnd hs hx]
          exact h2
      | false =>
        have h2 := executeNode_inputs reg ctx n
        rcases hx : GraphExecutor.executeNode reg ctx n with ⟨ctx2, ab⟩
        rw [hx] at h2
        cases ab with
        | none =>
          rw [streamOrder_eq_plain_ok hnd hs hx]
          dsimp only
          rw [ih ctx2]
          exact h2
        | some a =>
          rw [streamOrder_eq_plain_abort hnd hs hx]
          exact h2

/-- C9: `execute_parallel_batches` builds its context without the supplied
inputs — the returned context's `execution_inputs` is always empty and the
`inputs` argument has no effect on the result at all — whereas
`execute_graph` and `execute_graph_streaming` store the supplied inputs into
`execution_inputs` (where they persist for the whole run). -/
theorem c9_parallel_batches_ignores_inputs {V : Type}
    (reg : String → Option (NodeImpl V)) (truthy : V → Bool) (g : GraphData V)
    (inputs inputs2 : List (String × V)) :
    (GraphExecutor.execute_parallel_batches reg g inputs).1.execution_inputs = [] ∧
      GraphExecutor.execute_parallel_batches reg g inputs =
        GraphExecutor.execute_parallel_batches reg g inputs2 ∧
      (GraphExecutor.execute_graph reg g inputs).1.execution_inputs = inputs ∧
      (GraphExecutor.execute_graph_streaming reg truthy g inputs).2.1.execution_inputs =
        inputs := by
  refine ⟨?_, rfl, ?_, ?_⟩
  · rw [GraphExecutor.execute_parallel_batches]
    cases hb : GraphExecutionPlanner.get_parallel_batches g with
    | error e => exact pendingInit_inputs _
    | ok batches =>
      simp only
      have h2 := runOrder_inputs reg batches.flatten
        (GraphExecutor.pendingInit { graph := g, execution_inputs := [] })
      rcases hx : GraphExecutor.runOrder reg batches.flatten
          (GraphExecutor.pendingInit { graph := g, execution_inputs := [] })
        with ⟨ctx2, ab⟩
      rw [hx] at h2
      rw [pendingInit_inputs] at h2
      cases ab with
      | none => exact h2
      | some a => exact h2
  · rw [GraphExecutor.execute_graph]
    cases hb : GraphExecutionPlanner.get_execution_order g with
    | error e => exact pendingInit_inputs _
    | ok order =>
      simp only
      have h2 := runOrder_inputs reg order
        (GraphExecutor.pendingInit { graph := g, execution_inputs := inputs })
      rcases hx : GraphExecutor.runOrder reg order
          (GraphExecutor.pendingInit { graph := g, execution_inputs := inputs })
        with ⟨ctx2, ab⟩
      rw [hx] at h2
      rw [pendingInit_inputs] at h2
      cases ab with
      | none => exact h2
      | some a => exact h2
  · rw [GraphExecutor.execute_graph_streaming]
    cases hb : GraphExecutionPlanner.get_execution_order g with
    | error e => exact pendingInit_inputs _
    | ok order =>
      simp only
      have h2 := streamOrder_inputs reg truthy order
        (GraphExecutor.pendingInit { graph := g, execution_inputs := inputs })
      rcases hx : GraphExecutor.streamOrder reg truthy order
          (GraphExecutor.pendingInit { graph := g, execution_inputs := inputs })
        with ⟨evs, ctx2, ab⟩
      rw [hx] at h2
      rw [pendingInit_inputs] at h2
      cases ab with
      | none => exact h2
      | some a => exact h2

/-! ### C7 -/

theorem collect_none_aux {V : Type} (ctx : ExecutionContext V) (node_id pname : String) :
    ∀ (ports : List (PortSpec V)) (acc : List (String × V)),
      getA pname acc = none →
      (∀ q ∈ ports, q.name = pname →
        ExecutionContext.get_input_value ctx node_id q.name = none ∧
          (q.required = true → q.default = none)) →
      getA pname (ports.foldl
        (fun inputs port =>
          match ExecutionContext.get_input_value ctx node_id port.name with
          | some v => setA port.name v inputs
          | none =>
            match port.required, port.default with
            | true, some d => setA port.name d inputs
            | _, _ => inputs)
        acc) = none := by
  intro ports
  induction ports with
  | nil =>
    intro acc hacc _
    exact hacc
  | cons q qs ih =>
    intro acc hacc hcond
    rw [List.foldl_cons]
    apply ih
    · cases hgi : ExecutionContext.get_input_value ctx node_id q.name with
      | some v =>
        by_cases hq : q.name = pname
        · exact absurd hgi (by rw [(hcond q (List.mem_cons_self _ _) hq).1]; simp)
        · dsimp only
          rw [getA_setA_ne _ _ (fun h => hq h.symm)]
          exact hacc
      | none =>
        cases hr : q.required with
        | false =>
          dsimp only
          cases q.default <;> exact hacc
        | true =>
          cases hd : q.default with
          | none => exact hacc
          | some d =>
            by_cases hq : q.name = pname
            · have h2 := (hcond q (List.mem_cons_self _ _) hq).2 hr
              rw [h2] at hd
              exact absurd hd (by simp)
            · dsimp only
              rw [getA_setA_ne _ _ (fun h => hq h.symm)]
              exact hacc
    · intro q2 hq2 hq2n
      exact hcond q2 (List.mem_cons_of_mem _ hq2) hq2n

/-- C7: executing a node that has a declared required input port which
receives no value — no edge feeds it with a recorded output
(`get_input_value` is null) and its declared default is null — fails input
validation: the raised `ExecutionError`'s missing-inputs list names that
port, and the node's status in the context is FAILED, not COMPLETED. -/
theorem c7_missing_required_input {V : Type} (reg : String → Option (NodeImpl V))
    (ctx : ExecutionContext V) (node_id : String) (nd : NodeData V)
    (impl : NodeImpl V) (p : PortSpec V)
    (hnd : getA node_id ctx.graph.nodes = some nd)
    (hreg : reg nd.node_type = some impl)
    (hnames : (impl.spec.inputs.map PortSpec.name).Nodup)
    (hp : p ∈ impl.spec.inputs)
    (hreq : p.required = true)
    (hdef : p.default = none)
    (hval : ExecutionContext.get_input_value ctx node_id p.name = none) :
    (GraphExecutor.executeNode reg ctx node_id).2 =
      some (GraphExecutor.NodeAbort.failed node_id
        (PyErr.invalidInputs node_id
          (GraphExecutor.missingRequired impl.spec
            (GraphExecutor.collectInputs
              (ExecutionContext.set_node_status ctx node_id NodeStatus.running)
              node_id impl.spec.inputs)))) ∧
      p.name ∈ GraphExecutor.missingRequired impl.spec
        (GraphExecutor.collectInputs
          (ExecutionContext.set_node_status ctx node_id NodeStatus.running)
          node_id impl.spec.inputs) ∧
      getA node_id ((GraphExecutor.executeNode reg ctx node_id).1).node_status =
        some NodeStatus.failed ∧
      getA node_id ((GraphExecutor.executeNode reg ctx node_id).1).node_status ≠
        some NodeStatus.completed := by
  have huniq : ∀ q ∈ impl.spec.inputs, q.name = p.name → q = p := by
    intro q hq hname
    exact List.inj_on_of_nodup_map hnames hq hp hname
  have habs : getA p.name
      (GraphExecutor.collectInputs
        (ExecutionContext.set_node_status ctx node_id NodeStatus.running)
        node_id impl.spec.inputs) = none := by
    apply collect_none_aux
    · rfl
    · intro q hq hqn
      have hqp := huniq q hq hqn
      subst hqp
      exact ⟨hval, fun _ => hdef⟩
  have hvfalse : validate_inputs impl.spec
      (GraphExecutor.collectInputs
        (ExecutionContext.set_node_status ctx node_id NodeStatus.running)
        node_id impl.spec.inputs) = false := by
    rw [validate_inputs, List.all_eq_false]
    refine ⟨p, hp, ?_⟩
    rw [hreq, habs]
    simp
  have hmem : p.name ∈ GraphExecutor.missingRequired impl.spec
      (GraphExecutor.collectInputs
        (ExecutionContext.set_node_status ctx node_id NodeStatus.running)
        node_id impl.spec.inputs) := by
    rw [GraphExecutor.missingRequired]
    apply List.mem_map.mpr
    refine ⟨p, List.mem_filter.mpr ⟨hp, ?_⟩, rfl⟩
    rw [hreq, habs]
    simp
  rw [executeNode_eq_invalid hnd hreg hvfalse]
  refine ⟨rfl, hmem, ?_, ?_⟩
  · show getA node_id (setA node_id NodeStatus.failed _) = some NodeStatus.failed
    exact getA_setA_self _ _ _
  · show getA node_id (setA node_id NodeStatus.failed _) ≠ some NodeStatus.completed
    rw [getA_setA_self]
    simp

/-- Witness for C7 at the concrete graph with one starved required port. -/
theorem c7_witness :
    (GraphExecutor.executeNode regW { graph := gNeed } "X").2 =
      some (GraphExecutor.NodeAbort.failed "X"
        (PyErr.invalidInputs "X"
          (GraphExecutor.missingRequired needImpl.spec
            (GraphExecutor.collectInputs
              (ExecutionContext.set_node_status { graph := gNeed } "X" NodeStatus.running)
              "X" needImpl.spec.inputs)))) ∧
      "text" ∈ GraphExecutor.missingRequired needImpl.spec
        (GraphExecutor.collectInputs
          (ExecutionContext.set_node_status { graph := gNeed } "X" NodeStatus.running)
          "X" needImpl.spec.inputs) ∧
      getA "X" ((GraphExecutor.executeNode regW { graph := gNeed } "X").1).node_status =
        some NodeStatus.failed ∧
      getA "X" ((GraphExecutor.executeNode regW { graph := gNeed } "X").1).node_status ≠
        some NodeStatus.completed :=
  c7_missing_required_input regW { graph := gNeed } "X" (exNode "X" "need") needImpl
    { name := "text" } rfl rfl (by decide) (by decide) rfl rfl rfl

/-! ### C2 -/

theorem foldl_set_node_output_status {V : Type} (outs : List (String × V))
    (ctx : ExecutionContext V) (n : String) :
    (outs.foldl (fun c pv => ExecutionContext.set_node_output c n pv.1 pv.2)
        ctx).node_status = ctx.node_status := by
  induction outs generalizing ctx with
  | nil => rfl
  | cons o os ih =>
    rw [List.foldl_cons, ih]
    rfl

theorem executeNode_status_other {V : Type} (reg : String → Option (NodeImpl V))
    (ctx : ExecutionContext V) (n m : String) (hm : m ≠ n) :
    getA m ((GraphExecutor.executeNode reg ctx n).1).node_status =
      getA m ctx.node_status := by
  cases hnd : getA n ctx.graph.nodes with
  | none => rw [executeNode_eq_keyError hnd]
  | some nd =>
    cases hreg : reg nd.node_type with
    | none =>
      rw [executeNode_eq_unknown hnd hreg]
      show getA m (setA n NodeStatus.failed (setA n NodeStatus.running ctx.node_status)) = _
      rw [getA_setA_ne _ _ hm, getA_setA_ne _ _ hm]
    | some impl =>
      cases hv : validate_inputs impl.spec
          (GraphExecutor.collectInputs
            (ExecutionContext.set_node_status ctx n NodeStatus.running) n impl.spec.inputs) with
      | false =>
        rw [executeNode_eq_invalid hnd hreg hv]
        show getA m (setA n NodeStatus.failed (setA n NodeStatus.running ctx.node_status)) = _
        rw [getA_setA_ne _ _ hm, getA_setA_ne _ _ hm]
      | true =>
        cases hex : impl.execute
            (ExecutionContext.set_node_status ctx n NodeStatus.running) nd with
        | error msg =>
          rw [executeNode_eq_raised hnd hreg hv hex]
          show getA m (setA n NodeStatus.failed (setA n NodeStatus.running ctx.node_status)) = _
          rw [getA_setA_ne _ _ hm, getA_setA_ne _ _ hm]
        | ok outs =>
          rw [executeNode_eq_ok hnd hreg hv hex]
          show getA m (setA n NodeStatus.completed
            (outs.foldl (fun c pv => ExecutionContext.set_node_output c n pv.1 pv.2)
              (ExecutionContext.set_node_status ctx n NodeStatus.running)).node_status) = _
          rw [getA_setA_ne _ _ hm, foldl_set_node_output_status]
          show getA m (setA n NodeStatus.running ctx.node_status) = _
          rw [getA_setA_ne _ _ hm]

theorem executeNode_fail_props {V : Type} (reg : String → Option (NodeImpl V))
    (ctx ctx2 : ExecutionContext V) (n nid : String) (e : PyErr)
    (h : GraphExecutor.executeNode reg ctx n =
      (ctx2, some (GraphExecutor.NodeAbort.failed nid e))) :
    nid = n ∧ getA n ctx2.node_status = some NodeStatus.failed ∧
      getA n ctx2.errors = some e := by
  cases hnd : getA n ctx.graph.nodes with
  | none =>
    rw [executeNode_eq_keyError hnd] at h
    injection h with h1 h2
    injection h2 with h2
    exact absurd h2 (by simp)
  | some nd =>
    have hfail : ∀ (c : ExecutionContext V) (e0 : PyErr),
        GraphExecutor.failNode c n e0 = (ctx2, some (GraphExecutor.NodeAbort.failed nid e)) →
        nid = n ∧ getA n ctx2.node_status = some NodeStatus.failed ∧
          getA n ctx2.errors = some e := by
      intro c e0 hf
      rw [GraphExecutor.failNode] at hf
      injection hf with h1 h2
      injection h2 with h2
      injection h2 with h3 h4
      subst h3
      subst h4
      subst h1
      refine ⟨rfl, ?_, getA_setA_self _ _ _⟩
      show getA n (setA n NodeStatus.failed _) = _
      exact getA_setA_self _ _ _
    cases hreg : reg nd.node_type with
    | none =>
      rw [executeNode_eq_unknown hnd hreg] at h
      exact hfail _ _ h
    | some impl =>
      cases hv : validate_inputs impl.spec
          (GraphExecutor.collectInputs
            (ExecutionContext.set_node_status ctx n NodeStatus.running) n impl.spec.inputs) with
      | false =>
        rw [executeNode_eq_invalid hnd hreg hv] at h
        exact hfail _ _ h
      | true =>
        cases hex : impl.execute
            (ExecutionContext.set_node_status ctx n NodeStatus.running) nd with
        | error msg =>
          rw [executeNode_eq_raised hnd hreg hv hex] at h
          exact hfail _ _ h
        | ok outs =>
          rw [executeNode_eq_ok hnd hreg hv hex] at h
          injection h with h1 h2
          exact absurd h2 (by simp)

theorem runOrder_fail {V : Type} (reg : String → Option (NodeImpl V)) :
    ∀ (l : List String) (ctx ctx2 : ExecutionContext V) (n : String) (e : PyErr),
      l.Nodup →
      GraphExecutor.runOrder reg l ctx =
        (ctx2, some (GraphExecutor.NodeAbort.failed n e)) →
      n ∈ l ∧ getA n ctx2.node_status = some NodeStatus.failed ∧
        getA n ctx2.errors = some e ∧
        ∀ m ∈ l, l.indexOf n < l.indexOf m →
          getA m ctx2.node_status = getA m ctx.node_status := by
  intro l
  induction l with
  | nil =>
    intro ctx ctx2 n e _ h
    rw [GraphExecutor.runOrder] at h
    injection h with h1 h2
    exact absurd h2 (by simp)
  | cons hd t ih =>
    intro ctx ctx2 n e hnd h
    rw [GraphExecutor.runOrder] at h
    rcases hx : GraphExecutor.executeNode reg ctx hd with ⟨c1, ab⟩
    rw [hx] at h
    cases ab with
    | some a =>
      dsimp only at h
      injection h with h1 h2
      injection h2 with h2
      subst h1
      subst h2
      rcases executeNode_fail_props reg ctx c1 hd n e hx with ⟨hn, hst, herr⟩
      subst hn
      refine ⟨List.mem_cons_self _ _, hst, herr, ?_⟩
      intro m hm hidx
      rw [List.indexOf_cons_self] at hidx
      have hmne : m ≠ n := by
        intro hme
        subst hme
        rw [List.indexOf_cons_self] at hidx
        omega
      have h3 := executeNode_status_other reg ctx n m hmne
      rw [hx] at h3
      exact h3
    | none =>
      dsimp only at h
      rcases ih c1 ctx2 n e (List.nodup_cons.mp hnd).2 h with ⟨hmem, hst, herr, hpres⟩
      have hhd : hd ≠ n := by
        intro hhe
        subst hhe
        exact (List.nodup_cons.mp hnd).1 hmem
      refine ⟨List.mem_cons_of_mem _ hmem, hst, herr, ?_⟩
      intro m hm hidx
      by_cases hmhd : m = hd
      · subst hmhd
        rw [List.indexOf_cons_self] at hidx
        omega
      · have hmt : m ∈ t := by
          rcases List.mem_cons.mp hm with hm2 | hm2
          · exact absurd hm2 hmhd
          · exact hm2
        rw [List.indexOf_cons_ne _ hhd,
          List.indexOf_cons_ne _ (fun he => hmhd he.symm)] at hidx
        have h2 := hpres m hmt (by omega)
        rw [h2]
        have h3 := executeNode_status_other reg ctx hd m hmhd
        rw [hx] at h3
        exact h3

theorem foldl_pending_not_mem {V : Type} :
    ∀ (l : List String) (ctx : ExecutionContext V) (m : String), m ∉ l →
      getA m ((l.foldl
        (fun c k => ExecutionContext.set_node_status c k NodeStatus.pending)
        ctx)).node_status = getA m ctx.node_status := by
  intro l
  induction l with
  | nil => intro ctx m _; rfl
  | cons k t ih =>
    intro ctx m hm
    rw [List.foldl_cons, ih _ m (fun h => hm (List.mem_cons_of_mem _ h))]
    show getA m (setA k NodeStatus.pending ctx.node_status) = _
    exact getA_setA_ne _ _ (fun h => hm (by rw [h]; exact List.mem_cons_self _ _))

theorem foldl_pending_mem {V : Type} :
    ∀ (l : List String) (ctx : ExecutionContext V) (m : String), m ∈ l →
      getA m ((l.foldl
        (fun c k => ExecutionContext.set_node_status c k NodeStatus.pending)
        ctx)).node_status = some NodeStatus.pending := by
  intro l
  induction l with
  | nil =>
    intro ctx m hm
    simp at hm
  | cons k t ih =>
    intro ctx m hm
    by_cases hmt : m ∈ t
    · rw [List.foldl_cons]
      exact ih _ m hmt
    · have hmk : m = k := by
        rcases List.mem_cons.mp hm with h | h
        · exact h
        · exact absurd h hmt
      subst hmk
      rw [List.foldl_cons, foldl_pending_not_mem t _ m hmt]
      show getA m (setA m NodeStatus.pending ctx.node_status) = _
      exact getA_setA_self _ _ _

theorem pendingInit_status_mem {V : Type} (ctx : ExecutionContext V) (m : String)
    (hm : m ∈ ctx.graph.nodeIds) :
    getA m (GraphExecutor.pendingInit ctx).node_status = some NodeStatus.pending :=
  foldl_pending_mem _ ctx m hm

/-- C2: when a node's `execute` raises, `_execute_node` sets that node's
status to FAILED, records the exception's message under `errors[node_id]`,
and the whole run aborts with the doubly wrapped `ExecutionError` (here the
`InnerErr.nodeFailed` payload of the raised
`ExecutionError("Graph execution failed: ...")`); in the sequential
`execute_graph`, every node strictly after the failing one in the execution
order still has status PENDING when the exception propagates. -/
theorem c2_node_exception_fails_run {V : Type} (reg : String → Option (NodeImpl V))
    (g : GraphData V) (inputs : List (String × V)) (order : List String)
    (ctx : ExecutionContext V) (n : String) (msg : String)
    (hN : g.nodeIds.Nodup)
    (horder : GraphExecutionPlanner.get_execution_order g = Except.ok order)
    (hrun : GraphExecutor.execute_graph reg g inputs =
      (ctx, some (GraphExecutor.InnerErr.nodeFailed n (PyErr.raised msg)))) :
    getA n ctx.node_status = some NodeStatus.failed ∧
      getA n ctx.errors = some (PyErr.raised msg) ∧
      ∀ m ∈ order, order.indexOf n < order.indexOf m →
        getA m ctx.node_status = some NodeStatus.pending := by
  have hperm := (geo_ok_order_perm_topo g order hN horder).1
  have hornd : order.Nodup := hperm.nodup_iff.mpr hN
  rw [GraphExecutor.execute_graph, horder] at hrun
  dsimp only at hrun
  rcases hro : GraphExecutor.runOrder reg order
      (GraphExecutor.pendingInit { graph := g, execution_inputs := inputs })
    with ⟨ctx2, ab⟩
  rw [hro] at hrun
  cases ab with
  | none =>
    dsimp only at hrun
    injection hrun with h1 h2
    exact absurd h2 (by simp)
  | some a =>
    dsimp only at hrun
    injection hrun with h1 h2
    injection h2 with h2
    subst h1
    cases a with
    | keyError k =>
      rw [GraphExecutor.abortToInner] at h2
      exact absurd h2 (by simp)
    | failed nid e =>
      rw [GraphExecutor.abortToInner] at h2
      injection h2 with h3 h4
      subst h3
      subst h4
      rcases runOrder_fail reg order _ ctx2 nid _ hornd hro with ⟨-, hst, herr, hpres⟩
      refine ⟨hst, herr, ?_⟩
      intro m hm hidx
      rw [hpres m hm hidx]
      apply pendingInit_status_mem
      exact hperm.mem_iff.mp hm

/-- Witness for C2 at the concrete graph where X raises and Y stays pending. -/
theorem c2_witness :
    getA "X" (GraphExecutor.execute_graph regW gBoom []).1.node_status =
        some NodeStatus.failed ∧
      getA "X" (GraphExecutor.execute_graph regW gBoom []).1.errors =
        some (PyErr.raised "kaboom") ∧
      ∀ m ∈ ["X", "Y"], ["X", "Y"].indexOf "X" < ["X", "Y"].indexOf m →
        getA m (GraphExecutor.execute_graph regW gBoom []).1.node_status =
          some NodeStatus.pending :=
  c2_node_exception_fails_run regW gBoom [] ["X", "Y"]
    (GraphExecutor.execute_graph regW gBoom []).1 "X" "kaboom"
    (by decide) (by rfl) (by rfl)

/-! ### C3 -/

theorem streamOrder_no_final_events {V : Type} (reg : String → Option (NodeImpl V))
    (truthy : V → Bool) :
    ∀ (l : List String) (ctx : ExecutionContext V),
      ∀ ev ∈ (GraphExecutor.streamOrder reg truthy l ctx).1,
        isExecComplete ev = false ∧ isExecError ev = false := by
  intro l
  induction l with
  | nil =>
    intro ctx ev hev
    rw [streamOrder_eq_nil] at hev
    simp at hev
  | cons n rest ih =>
    intro ctx ev hev
    cases hnd : getA n ctx.graph.nodes with
    | none =>
      rw [streamOrder_eq_keyError hnd] at hev
      simp at hev
    | some nd =>
      cases hs : GraphExecutor.node_supports_streaming truthy nd with
      | true =>
        rcases hx : GraphExecutor.executeNodeStreaming reg ctx n with ⟨chunks, ctx2, ab⟩
        cases ab with
        | some a =>
          rw [streamOrder_eq_stream_abort hnd hs hx] at hev
          rcases List.mem_map.mp hev with ⟨c, -, rfl⟩
          exact ⟨rfl, rfl⟩
        | none =>
          rw [streamOrder_eq_stream_ok hnd hs hx] at hev
          rcases List.mem_append.mp hev with hev2 | hev2
          · rcases List.mem_append.mp hev2 with hev3 | hev3
            · rcases List.mem_map.mp hev3 with ⟨c, -, rfl⟩
              exact ⟨rfl, rfl⟩
            · rw [List.mem_singleton] at hev3
              subst hev3
              exact ⟨rfl, rfl⟩
          · exact ih ctx2 ev hev2
      | false =>
        rcases hx : GraphExecutor.executeNode reg ctx n with ⟨ctx2, ab⟩
        cases ab with
        | some a =>
          rw [streamOrder_eq_plain_abort hnd hs hx] at hev
          simp at hev
        | none =>
          rw [streamOrder_eq_plain_ok hnd hs hx] at hev
          rcases List.mem_append.mp hev with hev2 | hev2
          · rcases List.mem_append.mp hev2 with hev3 | hev3
            · simp at hev3
            · rw [List.mem_singleton] at hev3
              subst hev3
              exact ⟨rfl, rfl⟩
          · exact ih ctx2 ev hev2

/-- C3 (amended): when any failure occurs during `execute_graph_streaming`,
the event sequence ends with a single `execution_error` event carrying the
failure (and its wall-clock timestamp field), and the generator then ALSO
re-raises, as `ExecutionError("Graph streaming execution failed: ...")` — the
`some` raise component; on success the sequence ends with a single
`execution_complete` event carrying all node outputs and nothing is
raised. -/
theorem c3_streaming_final_events {V : Type} (reg : String → Option (NodeImpl V))
    (truthy : V → Bool) (g : GraphData V) (inputs : List (String × V)) :
    (∀ err, (GraphExecutor.execute_graph_streaming reg truthy g inputs).2.2 = some err →
      (GraphExecutor.execute_graph_streaming reg truthy g inputs).1.getLast? =
        some (GraphExecutor.Event.execution_error err ()) ∧
      (GraphExecutor.execute_graph_streaming reg truthy g inputs).1.countP isExecError = 1 ∧
      (GraphExecutor.execute_graph_streaming reg truthy g inputs).1.countP
        isExecComplete = 0) ∧
    ((GraphExecutor.execute_graph_streaming reg truthy g inputs).2.2 = none →
      (GraphExecutor.execute_graph_streaming reg truthy g inputs).1.getLast? =
        some (GraphExecutor.Event.execution_complete "completed"
          (GraphExecutor.execute_graph_streaming reg truthy g inputs).2.1.node_outputs ()) ∧
      (GraphExecutor.execute_graph_streaming reg truthy g inputs).1.countP
        isExecComplete = 1) := by
  rw [GraphExecutor.execute_graph_streaming]
  cases hgo : GraphExecutionPlanner.get_execution_order g with
  | error errs =>
    dsimp only
    refine ⟨?_, ?_⟩
    · intro err herr
      injection herr with herr
      subst herr
      exact ⟨rfl, rfl, rfl⟩
    · intro hnone
      exact absurd hnone (by simp)
  | ok order =>
    dsimp only
    have hno := streamOrder_no_final_events reg truthy order
      (GraphExecutor.pendingInit { graph := g, execution_inputs := inputs })
    rcases hso : GraphExecutor.streamOrder reg truthy order
        (GraphExecutor.pendingInit { graph := g, execution_inputs := inputs })
      with ⟨evs, ctx2, ab⟩
    rw [hso] at hno
    have hcomp0 : evs.countP isExecComplete = 0 :=
      List.countP_eq_zero.mpr (fun ev hev => by rw [(hno ev hev).1]; simp)
    have herr0 : evs.countP isExecError = 0 :=
      List.countP_eq_zero.mpr (fun ev hev => by rw [(hno ev hev).2]; simp)
    cases ab with
    | none =>
      dsimp only
      refine ⟨?_, ?_⟩
      · intro err herr
        exact absurd herr (by simp)
      · intro _
        refine ⟨List.getLast?_concat _, ?_⟩
        rw [List.countP_append, hcomp0]
        rfl
    | some a =>
      dsimp only
      refine ⟨?_, ?_⟩
      · intro err herr
        injection herr with herr
        subst herr
        refine ⟨List.getLast?_concat _, ?_, ?_⟩
        · rw [List.countP_append, herr0]
          rfl
        · rw [List.countP_append, hcomp0]
          rfl
      · intro hnone
        exact absurd hnone (by simp)

/-- Counterexample to C3 as stated: on a failing streaming run the generator
emits the `execution_error` event but then still raises (`some` raise
component) — it does not stop raising. -/
theorem c3_counterexample :
    (GraphExecutor.execute_graph_streaming regW (fun _ => false) gMystery []).2.2 ≠
        none ∧
      GraphExecutor.Event.execution_error
          (GraphExecutor.InnerErr.nodeFailed "X" (PyErr.unknownNodeType "mystery")) () ∈
        (GraphExecutor.execute_graph_streaming regW (fun _ => false) gMystery []).1 := by
  constructor
  · decide
  · decide

/-- Witness for the amended C3 at one failing and one succeeding run. -/
theorem c3_witness :
    ((GraphExecutor.execute_graph_streaming regW (fun _ => false) gMystery []).1.getLast? =
        some (GraphExecutor.Event.execution_error
          (GraphExecutor.InnerErr.nodeFailed "X" (PyErr.unknownNodeType "mystery")) ()) ∧
      (GraphExecutor.execute_graph_streaming regW (fun _ => false) gMystery []).1.countP
        isExecError = 1 ∧
      (GraphExecutor.execute_graph_streaming regW (fun _ => false) gMystery []).1.countP
        isExecComplete = 0) ∧
    ((GraphExecutor.execute_graph_streaming regW (fun _ => false) gConst []).1.getLast? =
        some (GraphExecutor.Event.execution_complete "completed"
          (GraphExecutor.execute_graph_streaming regW (fun _ => false) gConst
            []).2.1.node_outputs ()) ∧
      (GraphExecutor.execute_graph_streaming regW (fun _ => false) gConst []).1.countP
        isExecComplete = 1) :=
  ⟨(c3_streaming_final_events regW (fun _ => false) gMystery []).1
      (GraphExecutor.InnerErr.nodeFailed "X" (PyErr.unknownNodeType "mystery")) (by rfl),
    (c3_streaming_final_events regW (fun _ => false) gConst []).2 (by rfl)⟩

end Nodecules
